import Mathlib

/-!
Verification of the Green-Planet terrain/vegetation core.

Shallow embedding of the repository sources:
  - src/grassSystem.ts  (class GrassSystem: instanced vegetation placement)
  - src/sphere.ts       (class WorldSphere: terrain, visitation and fertility state)
  - src/utils/noise.ts  (class PerlinNoise: gradient noise)

JavaScript numbers are modelled by exact arithmetic: `Rat` for the purely
rational state arithmetic (fertility, counters, coverage) and `Real` for
geometry (vector lengths use square roots).  JS `Map` is modelled as an
insertion-ordered association list, JS `Set` as a `Finset`.
-/

/-- Vector with three real components, modelling THREE.Vector3. -/
@[ext]
structure Vec3 where
  x : ℝ
  y : ℝ
  z : ℝ

namespace Vec3

/-- Componentwise subtraction (THREE.Vector3.sub). -/
def sub (a b : Vec3) : Vec3 := ⟨a.x - b.x, a.y - b.y, a.z - b.z⟩

/-- Scalar multiple (THREE.Vector3.multiplyScalar). -/
def smul (r : ℝ) (a : Vec3) : Vec3 := ⟨r * a.x, r * a.y, r * a.z⟩

/-- Dot product (THREE.Vector3.dot). -/
def dot (a b : Vec3) : ℝ := a.x * b.x + a.y * b.y + a.z * b.z

/-- Cross product (THREE.Vector3.crossVectors). -/
def cross (a b : Vec3) : Vec3 :=
  ⟨a.y * b.z - a.z * b.y, a.z * b.x - a.x * b.z, a.x * b.y - a.y * b.x⟩

/-- Squared length of a vector. -/
def normSq (a : Vec3) : ℝ := a.x * a.x + a.y * a.y + a.z * a.z

/-- Length of a vector (THREE.Vector3.length). -/
noncomputable def len (a : Vec3) : ℝ := Real.sqrt a.normSq

/-- Normalization (THREE.Vector3.normalize): divide by the length.  THREE
produces NaN components for the zero vector; here division by zero yields
the zero vector, and no claim depends on that case. -/
noncomputable def normalize (a : Vec3) : Vec3 := smul (1 / a.len) a

/-- The zero vector. -/
def zero : Vec3 := ⟨0, 0, 0⟩

end Vec3

/-! ## GrassSystem (src/grassSystem.ts)

State relevant to blade placement: the instance count `grassCount`, the
capacity `maxGrassCount`, and the set `placedGrassBlades` of vertex indices
that were already seeded.  The per-blade transform contents are driven by
Math.random() and do not influence the count/set dynamics the claims are
about; the number of appended instance transforms is `newBlades` below. -/

/-- Entry of the fertile-vertex snapshot consumed by GrassSystem.update
(produced by WorldSphere.getFertileVertices). -/
structure FertileVertex where
  index : ℕ
  position : Vec3
  normal : Vec3
  fertility : ℚ

namespace GrassSystem

/-- Constant GRASS_BLADES_PER_VERTEX = 150 from src/grassSystem.ts. -/
def GRASS_BLADES_PER_VERTEX : ℚ := 150

/-- Mutable placement state of the GrassSystem instance. -/
structure GrassState where
  grassCount : ℕ
  maxGrassCount : ℕ
  placedGrassBlades : Finset ℕ
deriving DecidableEq

/-- State after the constructor / initializeGrassSystem: no blades placed,
capacity 1000000. -/
def initialGrassState : GrassState :=
  { grassCount := 0, maxGrassCount := 1000000, placedGrassBlades := ∅ }

/-- The inner blade loop of placeNewGrassBlades:
for (let i = 0; i < bladesForVertex and grassCount + newBlades < maxGrassCount; i++) { ... newBlades++ }.
Arguments: remaining iteration budget (bladesForVertex minus i) and the
current running total `cur = grassCount + newBlades`.  Returns the number of
blade transforms appended (each iteration writes one instance matrix). -/
def bladeLoop (maxGrassCount : ℕ) : ℕ → ℕ → ℕ
  | 0, _ => 0
  | n + 1, cur => if cur < maxGrassCount then bladeLoop maxGrassCount n (cur + 1) + 1 else 0

/-- One iteration of the for-loop over fertileVertices in placeNewGrassBlades.
The accumulator carries (placedGrassBlades, newBlades); `grassCount` is the
field value at entry to the call, constant during the loop. -/
def placeStep (maxGrassCount grassCount : ℕ) (acc : Finset ℕ × ℕ) (v : FertileVertex) :
    Finset ℕ × ℕ :=
  -- Skip if fertility is too low
  if v.fertility < 1/10 then acc
  -- Skip if we have already placed grass for this vertex
  else if v.index ∈ acc.1 then acc
  else
    -- Number of blades for this vertex based on fertility
    let bladesForVertex := (⌊GRASS_BLADES_PER_VERTEX * v.fertility⌋).toNat
    -- Mark this vertex as having grass, then run the capacity-bounded loop
    (insert v.index acc.1, acc.2 + bladeLoop maxGrassCount bladesForVertex (grassCount + acc.2))

/-- placeNewGrassBlades: process each fertile vertex, then add newBlades to
grassCount (the code guards the addition by newBlades > 0, which has the
same effect). -/
def placeNewGrassBlades (st : GrassState) (fertileVertices : List FertileVertex) : GrassState :=
  let r := fertileVertices.foldl (placeStep st.maxGrassCount st.grassCount)
    (st.placedGrassBlades, 0)
  { st with placedGrassBlades := r.1, grassCount := st.grassCount + r.2 }

/-- GrassSystem.update: the placement part.  The remainder of update only
refreshes shader uniforms (time, sun/moon) and does not touch the placement
state.  The initialized/grassMesh guard always passes after construction. -/
def update (st : GrassState) (fertileVertices : List FertileVertex) : GrassState :=
  placeNewGrassBlades st fertileVertices

/-! Tangent-frame construction of the blade loop (grassSystem.ts lines
199-209): tangent starts as (1,0,0) and is replaced by (0,1,0) when
the normal has |y| < 0.99, then tangent := normalize(seed x normal) and
bitangent := normal x tangent. -/

/-- The seed axis chosen before orthogonalization. -/
noncomputable def tangentSeed (normal : Vec3) : Vec3 :=
  if |normal.y| < (99/100 : ℝ) then ⟨0, 1, 0⟩ else ⟨1, 0, 0⟩

/-- tangent.crossVectors(tangent, normal).normalize(). -/
noncomputable def bladeTangent (normal : Vec3) : Vec3 :=
  Vec3.normalize (Vec3.cross (tangentSeed normal) normal)

/-- bitangent = crossVectors(normal, tangent). -/
noncomputable def bladeBitangent (normal : Vec3) : Vec3 :=
  Vec3.cross normal (bladeTangent normal)

end GrassSystem

/-! ## WorldSphere (src/sphere.ts)

Per-vertex visitation/fertility state, the vertex color buffer and the
coverage counter.  Vertex positions and normals are the displaced geometry
attributes, fixed after construction; the mesh is never transformed, so
matrixWorld is the identity and attribute values are world-space values. -/

/-- Entry of the vertexStates map (interface VertexState). -/
structure VertexState where
  visited : Bool
  fertility : ℚ
deriving DecidableEq

/-- State of a WorldSphere instance. -/
structure WorldSphere where
  positions : ℕ → Vec3
  normals : ℕ → Vec3
  totalVertices : ℕ
  vertexStates : List (ℕ × VertexState)
  visitedVertexCount : ℕ
  colors : ℕ → ℚ × ℚ × ℚ

namespace WorldSphere

/-- Green visited color 0x00ff00 as an RGB triple. -/
def visitColor : ℚ × ℚ × ℚ := (0, 1, 0)

/-- White original color 0xffffff as an RGB triple. -/
def originalColor : ℚ × ℚ × ℚ := (1, 1, 1)

/-- State after the constructor: no vertex state entries, zero visited
count, all colors original.  Geometry (positions, normals, vertex count)
comes from the displaced sphere geometry. -/
def construct (positions normals : ℕ → Vec3) (totalVertices : ℕ) : WorldSphere :=
  { positions := positions, normals := normals, totalVertices := totalVertices,
    vertexStates := [], visitedVertexCount := 0, colors := fun _ => originalColor }

/-- JS Map.set: update the entry in place if the key is present (preserving
insertion order), otherwise append the new entry at the end. -/
def mapSet (l : List (ℕ × VertexState)) (k : ℕ) (v : VertexState) : List (ℕ × VertexState) :=
  match l with
  | [] => [(k, v)]
  | (k2, v2) :: t => if k = k2 then (k, v) :: t else (k2, v2) :: mapSet t k v

/-- Perpendicular distance from a vertex to the line from the sphere center
through the agent (markVisitedArea lines 314-322). -/
noncomputable def distanceToLine (centerToPlayer vertexPos : Vec3) : ℝ :=
  let projectionLength := Vec3.dot vertexPos centerToPlayer
  let projectionPoint := Vec3.smul projectionLength centerToPlayer
  let perpendicularVector := Vec3.sub vertexPos projectionPoint
  Vec3.len perpendicularVector

/-- Body of the per-vertex loop of markVisitedArea: proximity test, lazy
state creation, first-visit marking (count increment and color write), then
the clamped fertility increment.  JS object aliasing makes the mutated
state visible through the map, modelled by writing the final state back. -/
noncomputable def markStep (centerToPlayer : Vec3) (coloringRadius : ℝ)
    (w : WorldSphere) (i : ℕ) : WorldSphere :=
  if distanceToLine centerToPlayer (w.positions i) < coloringRadius then
    let state := (w.vertexStates.lookup i).getD { visited := false, fertility := 0 }
    if state.visited then
      let s2 : VertexState := { state with fertility := min 1 (state.fertility + 1/100) }
      { w with vertexStates := mapSet w.vertexStates i s2 }
    else
      let s2 : VertexState := { visited := true, fertility := min 1 (state.fertility + 1/100) }
      { w with
        vertexStates := mapSet w.vertexStates i s2,
        visitedVertexCount := w.visitedVertexCount + 1,
        colors := fun j => if j = i then visitColor else w.colors j }
  else w

/-- getCoveragePercentage: (visitedVertexCount / totalVertices) * 100. -/
def getCoveragePercentage (w : WorldSphere) : ℚ :=
  ((w.visitedVertexCount : ℚ) / (w.totalVertices : ℚ)) * 100

/-- markVisitedArea: scan every vertex index, then return the coverage
percentage of the resulting state. -/
noncomputable def markVisitedArea (w : WorldSphere) (playerPosition : Vec3)
    (coloringRadius : ℝ) : WorldSphere × ℚ :=
  let centerToPlayer := Vec3.normalize playerPosition
  let w2 := (List.range w.totalVertices).foldl (markStep centerToPlayer coloringRadius) w
  (w2, getCoveragePercentage w2)

/-- uncolorVertex: reset a visited vertex to unvisited/zero fertility,
decrement the visited count and restore the original color. -/
def uncolorVertex (w : WorldSphere) (vertexIndex : ℕ) : WorldSphere :=
  match w.vertexStates.lookup vertexIndex with
  | none => w
  | some state =>
    if state.visited then
      { w with
        vertexStates := mapSet w.vertexStates vertexIndex { visited := false, fertility := 0 },
        visitedVertexCount := w.visitedVertexCount - 1,
        colors := fun j => if j = vertexIndex then originalColor else w.colors j }
    else w

/-- getFertileVertices: every visited entry of the state map, in map
(insertion) order, with its position, normal and current fertility. -/
def getFertileVertices (w : WorldSphere) : List FertileVertex :=
  (w.vertexStates.filter fun p => p.2.visited).map fun p =>
    { index := p.1, position := w.positions p.1, normal := w.normals p.1,
      fertility := p.2.fertility }

end WorldSphere

/-- The two state-mutating WorldSphere operations of the public interface. -/
inductive SphereOp where
  | mark (playerPosition : Vec3) (coloringRadius : ℝ)
  | uncolor (vertexIndex : ℕ)

/-- Apply one operation to the sphere state. -/
noncomputable def applyOp (w : WorldSphere) : SphereOp → WorldSphere
  | SphereOp.mark p r => (WorldSphere.markVisitedArea w p r).1
  | SphereOp.uncolor i => WorldSphere.uncolorVertex w i

/-! ## The exact-threshold scenario of C3

A single vertex sitting exactly under the agent (both on the positive z
axis), marked once per tick with coloringRadius 1.  The driver loop in
game.ts calls markVisitedArea once per tick and feeds getFertileVertices
into GrassSystem.update. -/

/-- One-vertex world: vertex 0 at the agent axis. -/
noncomputable def scenarioSphere : WorldSphere :=
  WorldSphere.construct (fun _ => ⟨0, 0, 1⟩) (fun _ => ⟨0, 0, 1⟩) 1

/-- One simulation tick of the scenario: the agent at (0,0,1), radius 1. -/
noncomputable def scenarioTick (w : WorldSphere) : WorldSphere :=
  (WorldSphere.markVisitedArea w ⟨0, 0, 1⟩ 1).1

/-- Scenario state after k ticks. -/
noncomputable def scenarioRun : ℕ → WorldSphere
  | 0 => scenarioSphere
  | k + 1 => scenarioTick (scenarioRun k)

/-! ## PerlinNoise (src/utils/noise.ts)

The constructor takes a JS number seed; simpleSeed = Math.floor(seed) % 256
uses the JS remainder (sign of the dividend, Int.tmod here).  `Math.floor(x)
& 255` in noise is ToInt32 followed by a mask; since 256 divides 2^32 this
equals the nonnegative residue floor(x) mod 256 for every integer, written
with Int.emod.  The repository always constructs the noise field with a
nonnegative seed (Math.random() * 1000). -/

namespace PerlinNoise

/-- simpleSeed = Math.floor(seed) % 256 with the JS remainder. -/
def simpleSeed (seed : ℚ) : ℤ := Int.tmod ⌊seed⌋ 256

/-- The permutation table built by the constructor: 512 entries with
perm[i] = perm[i + 256] = (i + simpleSeed) % 256 (JS remainder). -/
def permTable (seed : ℚ) : List ℤ :=
  (List.range 512).map fun j => Int.tmod (((j % 256 : ℕ) : ℤ) + simpleSeed seed) 256

/-- Table lookup; every index used by noise stays below 512 when the seed
is nonnegative, as the table entries then lie in [0, 255]. -/
def permAt (seed : ℚ) (j : ℕ) : ℤ := (permTable seed).getD j 0

/-- Fade curve as defined by Ken Perlin: t t t (t (t 6 - 15) + 10). -/
def fade (t : ℝ) : ℝ := t * t * t * (t * (t * 6 - 15) + 10)

/-- Linear interpolation a + t (b - a). -/
def lerp (a b t : ℝ) : ℝ := a + t * (b - a)

/-- Gradient function: convert the low 4 bits of the hash code into one of
12 gradient directions. -/
def grad (hash : ℕ) (x y z : ℝ) : ℝ :=
  let h := hash &&& 15
  let u := if h < 8 then x else y
  let v := if h < 4 then y else if h = 12 ∨ h = 14 then x else z
  (if h &&& 1 = 0 then u else -u) + (if h &&& 2 = 0 then v else -v)

/-- 3D Perlin noise, mirroring PerlinNoise.noise.  Table lookups convert
the (nonnegative, for seeds at least 0) entries back to indices. -/
noncomputable def noise (seed : ℚ) (x y z : ℝ) : ℝ :=
  let X : ℕ := (⌊x⌋ % 256).toNat
  let Y : ℕ := (⌊y⌋ % 256).toNat
  let Z : ℕ := (⌊z⌋ % 256).toNat
  let xf := x - (⌊x⌋ : ℝ)
  let yf := y - (⌊y⌋ : ℝ)
  let zf := z - (⌊z⌋ : ℝ)
  let u := fade xf
  let v := fade yf
  let w := fade zf
  let p : ℕ → ℕ := fun j => (permAt seed j).toNat
  let A := p X + Y
  let AA := p A + Z
  let AB := p (A + 1) + Z
  let B := p (X + 1) + Y
  let BA := p B + Z
  let BB := p (B + 1) + Z
  lerp
    (lerp (lerp (grad (p AA) xf yf zf) (grad (p BA) (xf - 1) yf zf) u)
          (lerp (grad (p AB) xf (yf - 1) zf) (grad (p BB) (xf - 1) (yf - 1) zf) u)
          v)
    (lerp (lerp (grad (p (AA + 1)) xf yf (zf - 1)) (grad (p (BA + 1)) (xf - 1) yf (zf - 1)) u)
          (lerp (grad (p (AB + 1)) xf (yf - 1) (zf - 1))
                (grad (p (BB + 1)) (xf - 1) (yf - 1) (zf - 1)) u)
          v)
    w

/-- State of the octaveNoise accumulation loop after a number of
iterations: (total, frequency, amplitude, maxValue). -/
noncomputable def octaveLoop (seed : ℚ) (x y z persistence : ℝ) : ℕ → ℝ × ℝ × ℝ × ℝ
  | 0 => (0, 1, 1, 0)
  | i + 1 =>
    let r := octaveLoop seed x y z persistence i
    (r.1 + noise seed (x * r.2.1) (y * r.2.1) (z * r.2.1) * r.2.2.1,
     r.2.1 * 2, r.2.2.1 * persistence, r.2.2.2 + r.2.2.1)

/-- octaveNoise: normalized multi-octave sum remapped to [0, 1]. -/
noncomputable def octaveNoise (seed : ℚ) (x y z : ℝ) (octaves : ℕ) (persistence : ℝ) : ℝ :=
  let r := octaveLoop seed x y z persistence octaves
  (r.1 / r.2.2.2 + 1) * 0.5

/-- The value of noise on one lattice cell, as a function of the hash class
n and the fractional coordinates.  With the cyclic permutation table the
hash fed to grad at the corner (i,j,k) of the cell is congruent to
n + i + j + k mod 16, where n depends only on X + Y + Z and the seed; the
lemma noise_eq_cellNoise proves noise equal to this function. -/
noncomputable def cellNoise (n : ℕ) (xf yf zf : ℝ) : ℝ :=
  lerp
    (lerp (lerp (grad ((n + 0) % 16) xf yf zf) (grad ((n + 1) % 16) (xf - 1) yf zf) (fade xf))
          (lerp (grad ((n + 1) % 16) xf (yf - 1) zf)
                (grad ((n + 2) % 16) (xf - 1) (yf - 1) zf) (fade xf))
          (fade yf))
    (lerp (lerp (grad ((n + 1) % 16) xf yf (zf - 1))
                (grad ((n + 2) % 16) (xf - 1) yf (zf - 1)) (fade xf))
          (lerp (grad ((n + 2) % 16) xf (yf - 1) (zf - 1))
                (grad ((n + 3) % 16) (xf - 1) (yf - 1) (zf - 1)) (fade xf))
          (fade yf))
    (fade zf)

end PerlinNoise

/-! ## A verified interval-arithmetic bound on the noise

Integer interval arithmetic with explicit scaling: a real value r is
enclosed at scale S by the integer pair (lo, hi) when lo <= S * r <= hi.
Fractional coordinates are enclosed at scale 6 on a grid of 6 cells per
axis, fade values at scale D = 6^5 (their exact denominator at the grid
nodes), and each lerp multiplies the scale by D.  A decidable scan of all
16 hash classes and 6 x 6 x 6 cells bounds the noise by 1 in absolute
value, which is what the displacement bound of the spec needs. -/

namespace NoiseBound

/-- Scale factor 6^5, the denominator of fade at multiples of 1/6. -/
def D : ℤ := 7776

/-- D times fade of k/6, exactly. -/
def fadeN (k : ℕ) : ℤ := 6 * (k:ℤ)^5 - 90 * (k:ℤ)^4 + 360 * (k:ℤ)^3

/-- Interval addition. -/
def iadd (A B : ℤ × ℤ) : ℤ × ℤ := (A.1 + B.1, A.2 + B.2)

/-- Interval negation. -/
def ineg (A : ℤ × ℤ) : ℤ × ℤ := (-A.2, -A.1)

/-- Interval enclosure of lerp a b t for a, b enclosed at a common scale
and t in the unit interval, enclosed by T at scale D. -/
def ilerp (A B T : ℤ × ℤ) : ℤ × ℤ :=
  (min (D * A.1 + T.1 * (B.1 - A.1)) (D * A.1 + T.2 * (B.1 - A.1)),
   max (D * A.2 + T.1 * (B.2 - A.2)) (D * A.2 + T.2 * (B.2 - A.2)))

/-- Interval version of grad, branch for branch. -/
def igrad (hash : ℕ) (X Y Z : ℤ × ℤ) : ℤ × ℤ :=
  let h := hash &&& 15
  let u := if h < 8 then X else Y
  let v := if h < 4 then Y else if h = 12 ∨ h = 14 then X else Z
  iadd (if h &&& 1 = 0 then u else ineg u) (if h &&& 2 = 0 then v else ineg v)

/-- Interval enclosure of cellNoise n on the cell with corner
(k1/6, k2/6, k3/6), at scale 6 * D^3. -/
def icell (n k1 k2 k3 : ℕ) : ℤ × ℤ :=
  let X : ℤ × ℤ := ((k1:ℤ), (k1:ℤ) + 1)
  let Y : ℤ × ℤ := ((k2:ℤ), (k2:ℤ) + 1)
  let Z : ℤ × ℤ := ((k3:ℤ), (k3:ℤ) + 1)
  let Xm : ℤ × ℤ := ((k1:ℤ) - 6, (k1:ℤ) + 1 - 6)
  let Ym : ℤ × ℤ := ((k2:ℤ) - 6, (k2:ℤ) + 1 - 6)
  let Zm : ℤ × ℤ := ((k3:ℤ) - 6, (k3:ℤ) + 1 - 6)
  let U : ℤ × ℤ := (fadeN k1, fadeN (k1 + 1))
  let V : ℤ × ℤ := (fadeN k2, fadeN (k2 + 1))
  let W : ℤ × ℤ := (fadeN k3, fadeN (k3 + 1))
  ilerp
    (ilerp (ilerp (igrad ((n + 0) % 16) X Y Z) (igrad ((n + 1) % 16) Xm Y Z) U)
           (ilerp (igrad ((n + 1) % 16) X Ym Z) (igrad ((n + 2) % 16) Xm Ym Z) U) V)
    (ilerp (ilerp (igrad ((n + 1) % 16) X Y Zm) (igrad ((n + 2) % 16) Xm Y Zm) U)
           (ilerp (igrad ((n + 2) % 16) X Ym Zm) (igrad ((n + 3) % 16) Xm Ym Zm) U) V)
    W

/-- The bound checked on one cell: the enclosure lies within the scaled
unit interval. -/
def checkCell (n k1 k2 k3 : ℕ) : Bool :=
  decide (-(6 * D^3) ≤ (icell n k1 k2 k3).1) && decide ((icell n k1 k2 k3).2 ≤ 6 * D^3)

/-- The scan over all cells of one hash class. -/
def checkClass (n : ℕ) : Bool :=
  (List.range 6).all fun k1 =>
    (List.range 6).all fun k2 =>
      (List.range 6).all fun k3 => checkCell n k1 k2 k3

/-- Membership of a real in a scaled integer interval. -/
def memS (S : ℤ) (r : ℝ) (I : ℤ × ℤ) : Prop := (I.1 : ℝ) ≤ S * r ∧ S * r ≤ (I.2 : ℝ)

end NoiseBound

/-- noiseScale = 10.0 from sphere.ts. -/
def noiseScale : ℝ := 10

/-- noiseStrength = 1.0 from sphere.ts. -/
def noiseStrength : ℝ := 1

/-- The per-vertex displaced radius of applyNoiseToGeometry: sample the
octave noise at direction * noiseScale, map from [0,1] to [-1,1], scale by
noiseStrength, and add to the original radius.  The new vertex position is
direction * newRadius. -/
noncomputable def newRadius (seed : ℚ) (direction : Vec3) (originalRadius : ℝ) : ℝ :=
  let noiseValue := PerlinNoise.octaveNoise seed (direction.x * noiseScale)
    (direction.y * noiseScale) (direction.z * noiseScale) 4 0.5
  let displacement := (noiseValue * 2 - 1) * noiseStrength
  originalRadius + displacement

namespace GrassSystem

lemma placeStep_subset (m g : ℕ) (acc : Finset ℕ × ℕ) (v : FertileVertex) :
    acc.1 ⊆ (placeStep m g acc v).1 := by
  unfold placeStep
  split
  · exact Finset.Subset.refl _
  · split
    · exact Finset.Subset.refl _
    · exact Finset.subset_insert _ _

lemma foldl_placeStep_subset (m g : ℕ) (l : List FertileVertex) (acc : Finset ℕ × ℕ) :
    acc.1 ⊆ (l.foldl (placeStep m g) acc).1 := by
  induction l generalizing acc with
  | nil => exact Finset.Subset.refl _
  | cons v t ih => exact (placeStep_subset m g acc v).trans (ih _)

/-- Every snapshot entry that passes the fertility threshold ends up in the
placed set, whether or not any blades fit under the capacity. -/
lemma mem_placed_of_foldl (m g : ℕ) (l : List FertileVertex) (acc : Finset ℕ × ℕ)
    (v : FertileVertex) (hv : v ∈ l) (hf : ¬ v.fertility < 1/10) :
    v.index ∈ (l.foldl (placeStep m g) acc).1 := by
  induction l generalizing acc with
  | nil => cases hv
  | cons u t ih =>
    rcases List.mem_cons.mp hv with rfl | hvt
    · refine Finset.mem_of_subset (foldl_placeStep_subset m g t _) ?_
      unfold placeStep
      rw [if_neg hf]
      split
      · assumption
      · exact Finset.mem_insert_self _ _
    · exact ih _ hvt

/-- A vertex already skipped (low fertility or already placed) leaves the
accumulator unchanged. -/
lemma placeStep_skip (m g : ℕ) (acc : Finset ℕ × ℕ) (v : FertileVertex)
    (h : v.fertility < 1/10 ∨ v.index ∈ acc.1) : placeStep m g acc v = acc := by
  unfold placeStep
  rcases h with h | h
  · rw [if_pos h]
  · by_cases hf : v.fertility < 1/10
    · rw [if_pos hf]
    · rw [if_neg hf, if_pos h]

lemma foldl_placeStep_id (m g : ℕ) (l : List FertileVertex) (acc : Finset ℕ × ℕ)
    (h : ∀ v ∈ l, v.fertility < 1/10 ∨ v.index ∈ acc.1) :
    l.foldl (placeStep m g) acc = acc := by
  induction l with
  | nil => rfl
  | cons u t ih =>
    have hu := h u (List.mem_cons_self u t)
    simp only [List.foldl_cons, placeStep_skip m g acc u hu]
    exact ih fun v hv => h v (List.mem_cons_of_mem u hv)

lemma bladeLoop_le (m : ℕ) : ∀ (n cur : ℕ), bladeLoop m n cur ≤ m - cur := by
  intro n
  induction n with
  | zero => intro cur; simp [bladeLoop]
  | succ k ih =>
    intro cur
    unfold bladeLoop
    split
    · have := ih (cur + 1)
      omega
    · omega

lemma bladeLoop_eq_zero (m n cur : ℕ) (h : m ≤ cur) : bladeLoop m n cur = 0 := by
  cases n with
  | zero => rfl
  | succ k => unfold bladeLoop; rw [if_neg (by omega)]

lemma bladeLoop_min (m : ℕ) : ∀ n cur : ℕ, bladeLoop m n cur = min n (m - cur) := by
  intro n
  induction n with
  | zero => intro cur; simp [bladeLoop]
  | succ k ih =>
    intro cur
    unfold bladeLoop
    split
    · rw [ih (cur + 1)]
      omega
    · omega

/-- The running total of appended blades never pushes grassCount past the
capacity. -/
lemma foldl_placeStep_le (m g : ℕ) (l : List FertileVertex) :
    ∀ acc : Finset ℕ × ℕ, g + acc.2 ≤ m → g + (l.foldl (placeStep m g) acc).2 ≤ m := by
  induction l with
  | nil => intro acc h; exact h
  | cons v t ih =>
    intro acc h
    refine ih _ ?_
    unfold placeStep
    split
    · exact h
    · split
      · exact h
      · have := bladeLoop_le m (⌊GRASS_BLADES_PER_VERTEX * v.fertility⌋).toNat (g + acc.2)
        simp only
        omega

/-- The number of appended blades only grows along the fold. -/
lemma foldl_placeStep_newBlades_mono (m g : ℕ) (l : List FertileVertex) :
    ∀ acc : Finset ℕ × ℕ, acc.2 ≤ (l.foldl (placeStep m g) acc).2 := by
  induction l with
  | nil => intro acc; exact le_refl _
  | cons v t ih =>
    intro acc
    refine le_trans ?_ (ih (placeStep m g acc v))
    unfold placeStep
    split
    · exact le_refl _
    · split
      · exact le_refl _
      · simp only
        omega

/-- With the capacity already reached, the fold appends no blades at all. -/
lemma foldl_placeStep_frozen (m g : ℕ) (hg : m ≤ g) (l : List FertileVertex) :
    ∀ acc : Finset ℕ × ℕ, acc.2 = 0 → (l.foldl (placeStep m g) acc).2 = 0 := by
  induction l with
  | nil => intro acc h; exact h
  | cons v t ih =>
    intro acc h
    refine ih _ ?_
    unfold placeStep
    split
    · exact h
    · split
      · exact h
      · simp only [h, bladeLoop_eq_zero m _ (g + 0) (by omega)]

lemma update_maxGrassCount (st : GrassState) (fv : List FertileVertex) :
    (update st fv).maxGrassCount = st.maxGrassCount := rfl

lemma update_grassCount_le (st : GrassState) (fv : List FertileVertex)
    (h : st.grassCount ≤ st.maxGrassCount) :
    (update st fv).grassCount ≤ st.maxGrassCount := by
  have := foldl_placeStep_le st.maxGrassCount st.grassCount fv
    (st.placedGrassBlades, 0) (by simpa using h)
  simpa [update, placeNewGrassBlades] using this

lemma update_grassCount_mono (st : GrassState) (fv : List FertileVertex) :
    st.grassCount ≤ (update st fv).grassCount :=
  Nat.le_add_right _ _

lemma update_placed_mono (st : GrassState) (fv : List FertileVertex) :
    st.placedGrassBlades ⊆ (update st fv).placedGrassBlades :=
  foldl_placeStep_subset st.maxGrassCount st.grassCount fv (st.placedGrassBlades, 0)

lemma update_frozen (st : GrassState) (fv : List FertileVertex)
    (h : st.maxGrassCount ≤ st.grassCount) :
    (update st fv).grassCount = st.grassCount := by
  have := foldl_placeStep_frozen st.maxGrassCount st.grassCount h fv
    (st.placedGrassBlades, 0) rfl
  simp only [update, placeNewGrassBlades, this]
  omega

/-- Capacity invariant along an arbitrary sequence of update calls. -/
lemma foldl_update_le (snapshots : List (List FertileVertex)) :
    ∀ st : GrassState, st.grassCount ≤ st.maxGrassCount →
      (snapshots.foldl update st).grassCount ≤ (snapshots.foldl update st).maxGrassCount := by
  induction snapshots with
  | nil => intro st h; exact h
  | cons fv t ih =>
    intro st h
    exact ih _ (le_trans (update_grassCount_le st fv h) (le_of_eq rfl))

end GrassSystem

namespace WorldSphere

lemma distanceToLine_nonneg (a v : Vec3) : 0 ≤ distanceToLine a v :=
  Real.sqrt_nonneg _

lemma markStep_not_lt (a : Vec3) (r : ℝ) (w : WorldSphere) (i : ℕ)
    (h : ¬ distanceToLine a (w.positions i) < r) : markStep a r w i = w := by
  unfold markStep
  rw [if_neg h]

lemma foldl_markStep_nonpos (a : Vec3) (r : ℝ) (hr : r ≤ 0) (l : List ℕ) :
    ∀ w : WorldSphere, l.foldl (markStep a r) w = w := by
  induction l with
  | nil => intro w; rfl
  | cons i t ih =>
    intro w
    rw [List.foldl_cons,
      markStep_not_lt a r w i fun hlt =>
        absurd (hlt.trans_le hr) (distanceToLine_nonneg a _).not_lt]
    exact ih w

lemma lookup_mem {l : List (ℕ × VertexState)} {i : ℕ} {s : VertexState}
    (h : l.lookup i = some s) : (i, s) ∈ l := by
  induction l with
  | nil => cases h
  | cons p t ih =>
    obtain ⟨k, v⟩ := p
    rw [List.lookup] at h
    cases hik : (i == k) with
    | true =>
      rw [hik] at h
      obtain rfl : v = s := by injection h
      obtain rfl : i = k := by simpa using hik
      exact List.mem_cons_self _ _
    | false =>
      rw [hik] at h
      exact List.mem_cons_of_mem _ (ih h)

lemma mem_mapSet {l : List (ℕ × VertexState)} {k : ℕ} {v : VertexState}
    {p : ℕ × VertexState} (h : p ∈ mapSet l k v) : p = (k, v) ∨ p ∈ l := by
  induction l with
  | nil => simpa [mapSet] using h
  | cons q t ih =>
    unfold mapSet at h
    split at h
    · rcases List.mem_cons.mp h with h1 | h1
      · exact Or.inl h1
      · exact Or.inr (List.mem_cons_of_mem q h1)
    · rcases List.mem_cons.mp h with h1 | h1
      · exact Or.inr (h1 ▸ List.mem_cons_self q t)
      · rcases ih h1 with h2 | h2
        · exact Or.inl h2
        · exact Or.inr (List.mem_cons_of_mem q h2)

end WorldSphere

/-- C1.  Seeding is idempotent: calling GrassSystem.update twice in
succession with the same fertile-vertex snapshot leaves the state of the
second call identical to the state after the first call — in particular the
second call appends zero new instance transforms and the instance count
grassCount is unchanged, because every vertex index seeded by the first call
is in placedGrassBlades and is skipped. -/
theorem grass_update_idempotent (st : GrassSystem.GrassState) (fv : List FertileVertex) :
    GrassSystem.update (GrassSystem.update st fv) fv = GrassSystem.update st fv := by
  classical
  have hmem : ∀ v ∈ fv, v.fertility < 1/10 ∨
      v.index ∈ (GrassSystem.update st fv).placedGrassBlades := by
    intro v hv
    by_cases hf : v.fertility < 1/10
    · exact Or.inl hf
    · exact Or.inr (GrassSystem.mem_placed_of_foldl _ _ fv _ v hv hf)
  cases h1 : GrassSystem.update st fv with
  | mk gc mgc pb =>
    rw [h1] at hmem
    unfold GrassSystem.update GrassSystem.placeNewGrassBlades
    rw [GrassSystem.foldl_placeStep_id mgc gc fv (pb, 0) (by simpa using hmem)]
    simp

/-- C2.  Capacity is respected: starting from the freshly constructed
GrassSystem, under any sequence of update calls with arbitrary snapshots the
instance count grassCount never exceeds maxGrassCount; a further update
never removes previously placed blades (the count and the placed set only
grow); and once the cap is reached (in any state) an update appends
nothing. -/
theorem grass_capacity_respected (snapshots : List (List FertileVertex))
    (fv : List FertileVertex) :
    (snapshots.foldl GrassSystem.update GrassSystem.initialGrassState).grassCount ≤
      GrassSystem.initialGrassState.maxGrassCount ∧
    (snapshots.foldl GrassSystem.update GrassSystem.initialGrassState).grassCount ≤
      (GrassSystem.update (snapshots.foldl GrassSystem.update GrassSystem.initialGrassState)
        fv).grassCount ∧
    (GrassSystem.update (snapshots.foldl GrassSystem.update GrassSystem.initialGrassState)
        fv).grassCount ≤ GrassSystem.initialGrassState.maxGrassCount ∧
    (∀ st : GrassSystem.GrassState, st.grassCount = st.maxGrassCount →
      (GrassSystem.update st fv).grassCount = st.grassCount) := by
  have hmax : ∀ s : List (List FertileVertex),
      (s.foldl GrassSystem.update GrassSystem.initialGrassState).maxGrassCount =
        GrassSystem.initialGrassState.maxGrassCount := by
    intro s
    induction s using List.reverseRecOn with
    | nil => rfl
    | append_singleton t fv2 ih => rw [List.foldl_append]; exact ih
  have hle : (snapshots.foldl GrassSystem.update GrassSystem.initialGrassState).grassCount ≤
      GrassSystem.initialGrassState.maxGrassCount := by
    have := GrassSystem.foldl_update_le snapshots GrassSystem.initialGrassState (Nat.zero_le _)
    rwa [hmax snapshots] at this
  refine ⟨hle, GrassSystem.update_grassCount_mono _ _, ?_, ?_⟩
  · have := GrassSystem.update_grassCount_le _ fv (by rwa [hmax snapshots])
    rwa [hmax snapshots] at this
  · intro st h
    exact GrassSystem.update_frozen st fv (le_of_eq h.symm)

/-- Witness for C2: with a state whose count already equals its capacity,
the cap hypothesis is discharged at a concrete state and the update appends
nothing. -/
theorem grass_capacity_respected_witness :
    (GrassSystem.update
      { grassCount := 5, maxGrassCount := 5, placedGrassBlades := ∅ }
      []).grassCount = 5 :=
  (grass_capacity_respected [] []).2.2.2
    { grassCount := 5, maxGrassCount := 5, placedGrassBlades := ∅ } rfl

/-- C10.  Marking forecloses seeding: in any update call, every snapshot
entry with fertility at least 0.1 whose index is not yet placed is added to
placedGrassBlades (the add precedes the blade loop, so this holds even when
the cap is already reached and zero blades are appended); the placed set
never shrinks; and for a vertex whose index is in the placed set the
per-vertex step is the identity, so such a vertex can never receive blades
in this or any later call. -/
theorem grass_mark_forecloses (st : GrassSystem.GrassState) (fv : List FertileVertex) :
    (∀ v ∈ fv, ¬ v.fertility < 1/10 →
      v.index ∈ (GrassSystem.update st fv).placedGrassBlades) ∧
    (st.maxGrassCount ≤ st.grassCount →
      (GrassSystem.update st fv).grassCount = st.grassCount) ∧
    st.placedGrassBlades ⊆ (GrassSystem.update st fv).placedGrassBlades ∧
    (∀ (m g : ℕ) (acc : Finset ℕ × ℕ) (w : FertileVertex),
      w.index ∈ acc.1 → GrassSystem.placeStep m g acc w = acc) := by
  refine ⟨?_, GrassSystem.update_frozen st fv, GrassSystem.update_placed_mono st fv, ?_⟩
  · intro v hv hf
    exact GrassSystem.mem_placed_of_foldl _ _ fv _ v hv hf
  · intro m g acc w hw
    exact GrassSystem.placeStep_skip m g acc w (Or.inr hw)

/-- Witness for C10: a fertile vertex processed at exhausted capacity is
marked as placed while zero blades are appended, and a placed index is
skipped by the per-vertex step. -/
theorem grass_mark_forecloses_witness :
    (7 ∈ (GrassSystem.update
        { grassCount := 3, maxGrassCount := 3, placedGrassBlades := ∅ }
        [{ index := 7, position := Vec3.zero, normal := Vec3.zero, fertility := 1/10 }]
      ).placedGrassBlades) ∧
    (GrassSystem.update
        { grassCount := 3, maxGrassCount := 3, placedGrassBlades := ∅ }
        [{ index := 7, position := Vec3.zero, normal := Vec3.zero, fertility := 1/10 }]
      ).grassCount = 3 ∧
    GrassSystem.placeStep 9 0 ({2}, 0)
        { index := 2, position := Vec3.zero, normal := Vec3.zero, fertility := 1/10 } =
      ({2}, 0) := by
  refine ⟨?_, ?_, ?_⟩
  · exact (grass_mark_forecloses _ _).1 _ (List.mem_singleton.mpr rfl) (lt_irrefl (1/10 : ℚ))
  · exact (grass_mark_forecloses _ _).2.1 (le_refl 3)
  · exact (grass_mark_forecloses
      { grassCount := 3, maxGrassCount := 3, placedGrassBlades := ∅ } []).2.2.2
      9 0 ({2}, 0) _ (Finset.mem_singleton.mpr rfl)

/-- C4.  Coverage arithmetic: getCoveragePercentage equals
100 * visitedVertexCount / totalVertices, markVisitedArea returns exactly
this value for the post-call state, and a state with 2500 of 10000 vertices
visited reads exactly 25. -/
theorem coverage_arithmetic (w : WorldSphere) (p : Vec3) (r : ℝ) :
    WorldSphere.getCoveragePercentage w =
      100 * (w.visitedVertexCount : ℚ) / (w.totalVertices : ℚ) ∧
    (WorldSphere.markVisitedArea w p r).2 =
      WorldSphere.getCoveragePercentage (WorldSphere.markVisitedArea w p r).1 ∧
    (∀ w2 : WorldSphere, w2.visitedVertexCount = 2500 → w2.totalVertices = 10000 →
      WorldSphere.getCoveragePercentage w2 = 25) := by
  refine ⟨?_, rfl, ?_⟩
  · unfold WorldSphere.getCoveragePercentage
    ring
  · intro w2 h1 h2
    unfold WorldSphere.getCoveragePercentage
    rw [h1, h2]
    norm_num

/-- Witness for C4: the concrete 2500-of-10000 state. -/
theorem coverage_arithmetic_witness :
    WorldSphere.getCoveragePercentage
      { positions := fun _ => Vec3.zero, normals := fun _ => Vec3.zero,
        totalVertices := 10000, vertexStates := [], visitedVertexCount := 2500,
        colors := fun _ => WorldSphere.originalColor } = 25 :=
  (coverage_arithmetic
    { positions := fun _ => Vec3.zero, normals := fun _ => Vec3.zero,
      totalVertices := 10000, vertexStates := [], visitedVertexCount := 2500,
      colors := fun _ => WorldSphere.originalColor } Vec3.zero 0).2.2 _ rfl rfl

/-- C7.  Proximity-test boundary: markVisitedArea with radius at most 0
marks nothing and leaves the whole state (vertex states, visited count,
fertility values, color buffer) unchanged, returning the unchanged coverage;
and for any radius, the per-vertex step excludes a vertex whose distance to
the agent axis equals the radius exactly (strict comparison). -/
theorem proximity_boundary (w : WorldSphere) (p a : Vec3) (r : ℝ) (i : ℕ) :
    (r ≤ 0 → WorldSphere.markVisitedArea w p r =
      (w, WorldSphere.getCoveragePercentage w)) ∧
    (WorldSphere.distanceToLine a (w.positions i) = r →
      WorldSphere.markStep a r w i = w) := by
  constructor
  · intro hr
    have h2 : (List.range w.totalVertices).foldl
        (WorldSphere.markStep (Vec3.normalize p) r) w = w :=
      WorldSphere.foldl_markStep_nonpos _ r hr _ w
    simp only [WorldSphere.markVisitedArea, h2]
  · intro hd
    exact WorldSphere.markStep_not_lt a r w i (by rw [hd]; exact lt_irrefl r)

/-- Witness for C7: radius 0 on a one-vertex world, and a vertex at
distance exactly 1 from the axis with radius 1. -/
theorem proximity_boundary_witness :
    WorldSphere.markVisitedArea scenarioSphere ⟨0, 0, 1⟩ 0 =
      (scenarioSphere, WorldSphere.getCoveragePercentage scenarioSphere) ∧
    WorldSphere.markStep ⟨0, 0, 1⟩ 1
      (WorldSphere.construct (fun _ => ⟨1, 0, 0⟩) (fun _ => ⟨1, 0, 0⟩) 1) 0 =
      WorldSphere.construct (fun _ => ⟨1, 0, 0⟩) (fun _ => ⟨1, 0, 0⟩) 1 := by
  constructor
  · exact (proximity_boundary scenarioSphere ⟨0, 0, 1⟩ Vec3.zero 0 0).1 (le_refl 0)
  · refine (proximity_boundary _ Vec3.zero ⟨0, 0, 1⟩ 1 0).2 ?_
    simp [WorldSphere.distanceToLine, WorldSphere.construct, Vec3.dot, Vec3.smul,
      Vec3.sub, Vec3.len, Vec3.normSq, Real.sqrt_one]

namespace WorldSphere

lemma markStep_fertility_inv (a : Vec3) (r : ℝ) (w : WorldSphere) (i : ℕ)
    (h : ∀ p ∈ w.vertexStates, 0 ≤ p.2.fertility ∧ p.2.fertility ≤ 1) :
    ∀ p ∈ (markStep a r w i).vertexStates, 0 ≤ p.2.fertility ∧ p.2.fertility ≤ 1 := by
  intro p hp
  have hf0 : 0 ≤ ((w.vertexStates.lookup i).getD
      { visited := false, fertility := 0 }).fertility := by
    cases hlk : w.vertexStates.lookup i with
    | none => simp [hlk]
    | some s =>
      have := (h (i, s) (lookup_mem hlk)).1
      simpa [hlk] using this
  have hmin_le : min (1:ℚ) (((w.vertexStates.lookup i).getD
      { visited := false, fertility := 0 }).fertility + 1/100) ≤ 1 := min_le_left _ _
  have hmin_ge : 0 ≤ min (1:ℚ) (((w.vertexStates.lookup i).getD
      { visited := false, fertility := 0 }).fertility + 1/100) :=
    le_min zero_le_one (by linarith)
  unfold markStep at hp
  split at hp
  · dsimp only at hp
    split at hp
    · rcases mem_mapSet hp with rfl | hmem
      · exact ⟨hmin_ge, hmin_le⟩
      · exact h _ hmem
    · rcases mem_mapSet hp with rfl | hmem
      · exact ⟨hmin_ge, hmin_le⟩
      · exact h _ hmem
  · exact h p hp

lemma uncolor_fertility_inv (w : WorldSphere) (idx : ℕ)
    (h : ∀ p ∈ w.vertexStates, 0 ≤ p.2.fertility ∧ p.2.fertility ≤ 1) :
    ∀ p ∈ (uncolorVertex w idx).vertexStates, 0 ≤ p.2.fertility ∧ p.2.fertility ≤ 1 := by
  intro p hp
  unfold uncolorVertex at hp
  split at hp
  · exact h p hp
  · split at hp
    · rcases mem_mapSet hp with rfl | hmem
      · exact ⟨le_refl 0, zero_le_one⟩
      · exact h _ hmem
    · exact h p hp

lemma foldl_markStep_fertility_inv (a : Vec3) (r : ℝ) (l : List ℕ) :
    ∀ w : WorldSphere, (∀ p ∈ w.vertexStates, 0 ≤ p.2.fertility ∧ p.2.fertility ≤ 1) →
      ∀ p ∈ (l.foldl (markStep a r) w).vertexStates,
        0 ≤ p.2.fertility ∧ p.2.fertility ≤ 1 := by
  induction l with
  | nil => intro w h; exact h
  | cons i t ih =>
    intro w h
    exact ih _ (markStep_fertility_inv a r w i h)

end WorldSphere

lemma applyOp_fertility_inv (w : WorldSphere) (op : SphereOp)
    (h : ∀ p ∈ w.vertexStates, 0 ≤ p.2.fertility ∧ p.2.fertility ≤ 1) :
    ∀ p ∈ (applyOp w op).vertexStates, 0 ≤ p.2.fertility ∧ p.2.fertility ≤ 1 := by
  cases op with
  | mark pos r => exact WorldSphere.foldl_markStep_fertility_inv _ r _ w h
  | uncolor i => exact WorldSphere.uncolor_fertility_inv w i h

/-- C6.  Fertility bound: under any sequence of markVisitedArea and
uncolorVertex calls starting from a freshly constructed WorldSphere, every
vertex state ever present in the state map has fertility in the closed
interval from 0 to 1; in particular it never exceeds 1 however many ticks
the vertex stays within the proximity radius. -/
theorem fertility_bounded (positions normals : ℕ → Vec3) (totalVertices : ℕ)
    (ops : List SphereOp) (p : ℕ × VertexState)
    (hp : p ∈ (ops.foldl applyOp
      (WorldSphere.construct positions normals totalVertices)).vertexStates) :
    0 ≤ p.2.fertility ∧ p.2.fertility ≤ 1 := by
  have main : ∀ (l : List SphereOp) (w : WorldSphere),
      (∀ q ∈ w.vertexStates, 0 ≤ q.2.fertility ∧ q.2.fertility ≤ 1) →
      ∀ q ∈ (l.foldl applyOp w).vertexStates, 0 ≤ q.2.fertility ∧ q.2.fertility ≤ 1 := by
    intro l
    induction l with
    | nil => intro w h; exact h
    | cons op t ih => intro w h; exact ih _ (applyOp_fertility_inv w op h)
  refine main ops _ ?_ p hp
  intro q hq
  simp [WorldSphere.construct] at hq

lemma normalize_unitZ : Vec3.normalize ⟨0, 0, 1⟩ = ⟨0, 0, 1⟩ := by
  unfold Vec3.normalize Vec3.len Vec3.normSq Vec3.smul
  norm_num [Real.sqrt_one]

lemma dist_unitZ_self : WorldSphere.distanceToLine ⟨0, 0, 1⟩ ⟨0, 0, 1⟩ = 0 := by
  unfold WorldSphere.distanceToLine Vec3.dot Vec3.smul Vec3.sub Vec3.len Vec3.normSq
  norm_num [Real.sqrt_zero]

lemma scenarioTick_eq (w : WorldSphere) (hV : w.totalVertices = 1) :
    scenarioTick w = WorldSphere.markStep ⟨0, 0, 1⟩ 1 w 0 := by
  unfold scenarioTick WorldSphere.markVisitedArea
  rw [normalize_unitZ, hV]
  rfl

lemma markStep_geometry (a : Vec3) (r : ℝ) (w : WorldSphere) (i : ℕ) :
    (WorldSphere.markStep a r w i).positions = w.positions ∧
    (WorldSphere.markStep a r w i).normals = w.normals ∧
    (WorldSphere.markStep a r w i).totalVertices = w.totalVertices := by
  unfold WorldSphere.markStep
  split
  · dsimp only
    split
    · exact ⟨rfl, rfl, rfl⟩
    · exact ⟨rfl, rfl, rfl⟩
  · exact ⟨rfl, rfl, rfl⟩

lemma markStep_scenario_fresh (w : WorldSphere) (hp : w.positions 0 = ⟨0, 0, 1⟩)
    (hst : w.vertexStates = []) :
    WorldSphere.markStep ⟨0, 0, 1⟩ 1 w 0 =
      { w with
        vertexStates := [(0, { visited := true, fertility := 1/100 })],
        visitedVertexCount := w.visitedVertexCount + 1,
        colors := fun j => if j = 0 then WorldSphere.visitColor else w.colors j } := by
  unfold WorldSphere.markStep
  rw [hp, dist_unitZ_self, if_pos (by norm_num : (0:ℝ) < 1), hst]
  dsimp only [List.lookup, Option.getD, WorldSphere.mapSet]
  norm_num

lemma markStep_scenario_visited (w : WorldSphere) (hp : w.positions 0 = ⟨0, 0, 1⟩)
    (q : ℚ) (hq : q + 1/100 ≤ 1)
    (hst : w.vertexStates = [(0, { visited := true, fertility := q })]) :
    WorldSphere.markStep ⟨0, 0, 1⟩ 1 w 0 =
      { w with vertexStates := [(0, { visited := true, fertility := q + 1/100 })] } := by
  unfold WorldSphere.markStep
  rw [hp, dist_unitZ_self, if_pos (by norm_num : (0:ℝ) < 1), hst]
  simp [WorldSphere.mapSet, List.lookup, min_eq_right hq]
  linarith

lemma scenarioRun_geometry (k : ℕ) :
    (scenarioRun k).positions = (fun _ => (⟨0, 0, 1⟩ : Vec3)) ∧
    (scenarioRun k).normals = (fun _ => (⟨0, 0, 1⟩ : Vec3)) ∧
    (scenarioRun k).totalVertices = 1 := by
  induction k with
  | zero => exact ⟨rfl, rfl, rfl⟩
  | succ n ih =>
    have ht := scenarioTick_eq (scenarioRun n) ih.2.2
    have hg := markStep_geometry ⟨0, 0, 1⟩ 1 (scenarioRun n) 0
    refine ⟨?_, ?_, ?_⟩
    · show (scenarioTick (scenarioRun n)).positions = _
      rw [ht, hg.1, ih.1]
    · show (scenarioTick (scenarioRun n)).normals = _
      rw [ht, hg.2.1, ih.2.1]
    · show (scenarioTick (scenarioRun n)).totalVertices = _
      rw [ht, hg.2.2, ih.2.2]

lemma scenarioRun_spec (n : ℕ) (hn : n + 1 ≤ 100) :
    (scenarioRun (n + 1)).vertexStates =
      [(0, { visited := true, fertility := ((n : ℚ) + 1)/100 })] ∧
    (scenarioRun (n + 1)).visitedVertexCount = 1 := by
  induction n with
  | zero =>
    have h1 : scenarioRun 1 = WorldSphere.markStep ⟨0, 0, 1⟩ 1 scenarioSphere 0 :=
      scenarioTick_eq scenarioSphere rfl
    rw [h1, markStep_scenario_fresh scenarioSphere rfl rfl]
    exact ⟨by norm_num, rfl⟩
  | succ m ih =>
    obtain ⟨ih1, ih2⟩ := ih (by omega)
    have hg := scenarioRun_geometry (m + 1)
    have h1 : scenarioRun (m + 2) = WorldSphere.markStep ⟨0, 0, 1⟩ 1 (scenarioRun (m + 1)) 0 :=
      scenarioTick_eq (scenarioRun (m + 1)) hg.2.2
    have hq : ((m : ℚ) + 1)/100 + 1/100 ≤ 1 := by
      rw [div_add_div_same]
      rw [div_le_one (by norm_num : (0:ℚ) < 100)]
      have : ((m : ℚ) + 2) ≤ 100 := by
        have : ((m + 2 : ℕ) : ℚ) ≤ (100 : ℚ) := by exact_mod_cast hn
        push_cast at this
        linarith
      linarith
    rw [h1, markStep_scenario_visited (scenarioRun (m + 1)) (by rw [hg.1]) _ hq ih1]
    constructor
    · dsimp only
      congr 2
      push_cast
      ring_nf
    · exact ih2

/-- C3.  Exact-threshold scenario, in the exact-arithmetic model: a single
vertex kept inside the proximity radius accumulates fertility k/100 after k
ticks of markVisitedArea (so exactly 0.10 after 10 ticks), and feeding the
tick-k snapshot to GrassSystem.update on a fresh GrassSystem seeds no blade
for ticks 1 to 9 (fertility below the 0.1 threshold) and seeds blades
(15 of them, the floor of 150 times 0.1) from the tick-10 snapshot.
Note: with IEEE doubles the accumulated fertility after 10 ticks is
0.09999999999999999, strictly below 0.1, so the running program seeds only
from tick 11 — see the RESULTS entry for this claim. -/
theorem threshold_scenario (k : ℕ) (hk1 : 1 ≤ k) (hk : k ≤ 10) :
    (scenarioRun k).vertexStates =
      [(0, { visited := true, fertility := (k : ℚ)/100 })] ∧
    WorldSphere.getFertileVertices (scenarioRun k) =
      [{ index := 0, position := ⟨0, 0, 1⟩, normal := ⟨0, 0, 1⟩,
         fertility := (k : ℚ)/100 }] ∧
    (GrassSystem.update GrassSystem.initialGrassState
      (WorldSphere.getFertileVertices (scenarioRun k))).grassCount =
      if k < 10 then 0 else 15 := by
  obtain ⟨n, rfl⟩ : ∃ n, k = n + 1 := ⟨k - 1, by omega⟩
  obtain ⟨hs, _⟩ := scenarioRun_spec n (by omega)
  have hcast : ((n : ℚ) + 1) = ((n + 1 : ℕ) : ℚ) := by push_cast; ring
  have hstates : (scenarioRun (n + 1)).vertexStates =
      [(0, { visited := true, fertility := ((n + 1 : ℕ) : ℚ)/100 })] := by
    rw [hs, hcast]
  have hg := scenarioRun_geometry (n + 1)
  have hfert : WorldSphere.getFertileVertices (scenarioRun (n + 1)) =
      [{ index := 0, position := ⟨0, 0, 1⟩, normal := ⟨0, 0, 1⟩,
         fertility := ((n + 1 : ℕ) : ℚ)/100 }] := by
    unfold WorldSphere.getFertileVertices
    rw [hstates, hg.1, hg.2.1]
    rfl
  refine ⟨hstates, hfert, ?_⟩
  rw [hfert]
  unfold GrassSystem.update GrassSystem.placeNewGrassBlades
  by_cases hlt : n + 1 < 10
  · have hq : ((n + 1 : ℕ) : ℚ)/100 < 1/10 := by
      rw [div_lt_div_iff₀ (by norm_num : (0:ℚ) < 100) (by norm_num : (0:ℚ) < 10)]
      have : ((n + 1 : ℕ) : ℚ) < 10 := by exact_mod_cast hlt
      linarith
    rw [if_pos hlt]
    simp only [List.foldl_cons, List.foldl_nil]
    rw [GrassSystem.placeStep_skip _ _ _ _ (Or.inl hq)]
    rfl
  · obtain rfl : n = 9 := by omega
    rw [if_neg hlt]
    simp only [List.foldl_cons, List.foldl_nil]
    unfold GrassSystem.placeStep
    rw [if_neg (by norm_num : ¬ (((9 + 1 : ℕ) : ℚ)/100 < 1/10))]
    rw [if_neg (by simp [GrassSystem.initialGrassState])]
    have hfl : (⌊GrassSystem.GRASS_BLADES_PER_VERTEX * (((9 + 1 : ℕ) : ℚ)/100)⌋).toNat = 15 := by
      norm_num [GrassSystem.GRASS_BLADES_PER_VERTEX]
      decide
    dsimp only
    rw [hfl]
    rw [GrassSystem.bladeLoop_min]
    decide

/-- Witness for C3 at the threshold tick k = 10. -/
theorem threshold_scenario_witness :
    (scenarioRun 10).vertexStates =
      [(0, { visited := true, fertility := ((10 : ℕ) : ℚ)/100 })] ∧
    (GrassSystem.update GrassSystem.initialGrassState
      (WorldSphere.getFertileVertices (scenarioRun 10))).grassCount =
      if 10 < 10 then 0 else 15 :=
  ⟨(threshold_scenario 10 (by decide) (by decide)).1,
   (threshold_scenario 10 (by decide) (by decide)).2.2⟩

/-- Witness for C6: after one marking tick on a one-vertex world the single
state entry has fertility 1/100, inside the unit interval. -/
theorem fertility_bounded_witness :
    0 ≤ ((0, ({ visited := true, fertility := 1/100 } : VertexState)) :
      ℕ × VertexState).2.fertility ∧
    ((0, ({ visited := true, fertility := 1/100 } : VertexState)) :
      ℕ × VertexState).2.fertility ≤ 1 := by
  refine fertility_bounded (fun _ => ⟨0, 0, 1⟩) (fun _ => ⟨0, 0, 1⟩) 1
    [SphereOp.mark ⟨0, 0, 1⟩ 1] _ ?_
  show (0, ({ visited := true, fertility := 1/100 } : VertexState)) ∈
    (scenarioRun 1).vertexStates
  rw [(scenarioRun_spec 0 (by omega)).1]
  norm_num

namespace Vec3

lemma normSq_nonneg (v : Vec3) : 0 ≤ v.normSq := by
  unfold normSq
  exact add_nonneg (add_nonneg (mul_self_nonneg _) (mul_self_nonneg _)) (mul_self_nonneg _)

lemma len_eq_one_iff (v : Vec3) : v.len = 1 ↔ v.normSq = 1 := by
  unfold len
  exact Real.sqrt_eq_one

lemma len_zero_vec : (zero).len = 0 := by
  unfold len zero normSq
  norm_num

lemma normSq_eq_zero_iff (v : Vec3) : v.normSq = 0 ↔ v = zero := by
  unfold normSq zero
  constructor
  · intro h
    have hx : v.x * v.x = 0 :=
      le_antisymm (by nlinarith [mul_self_nonneg v.y, mul_self_nonneg v.z]) (mul_self_nonneg v.x)
    have hy : v.y * v.y = 0 :=
      le_antisymm (by nlinarith [mul_self_nonneg v.x, mul_self_nonneg v.z]) (mul_self_nonneg v.y)
    have hz : v.z * v.z = 0 :=
      le_antisymm (by nlinarith [mul_self_nonneg v.x, mul_self_nonneg v.y]) (mul_self_nonneg v.z)
    ext
    · exact mul_self_eq_zero.mp hx
    · exact mul_self_eq_zero.mp hy
    · exact mul_self_eq_zero.mp hz
  · rintro rfl
    dsimp only
    ring

lemma len_smul (r : ℝ) (v : Vec3) : (smul r v).len = |r| * v.len := by
  unfold len smul normSq
  dsimp only
  rw [show r * v.x * (r * v.x) + r * v.y * (r * v.y) + r * v.z * (r * v.z)
      = (r * r) * (v.x * v.x + v.y * v.y + v.z * v.z) from by ring]
  rw [Real.sqrt_mul (mul_self_nonneg r), ← pow_two, Real.sqrt_sq_eq_abs]

lemma len_normalize {v : Vec3} (h : v.normSq ≠ 0) : v.normalize.len = 1 := by
  have hpos : 0 < v.normSq := lt_of_le_of_ne (normSq_nonneg v) (Ne.symm h)
  have hlen : 0 < v.len := Real.sqrt_pos.mpr hpos
  unfold normalize
  rw [len_smul, abs_of_pos (by positivity : (0:ℝ) < 1 / v.len)]
  field_simp

lemma dot_cross_left (a b : Vec3) : dot a (cross a b) = 0 := by
  unfold dot cross
  dsimp only
  ring

lemma dot_cross_right (a b : Vec3) : dot b (cross a b) = 0 := by
  unfold dot cross
  dsimp only
  ring

lemma dot_smul_right (r : ℝ) (a b : Vec3) : dot a (smul r b) = r * dot a b := by
  unfold dot smul
  dsimp only
  ring

lemma normSq_cross (a b : Vec3) : (cross a b).normSq = a.normSq * b.normSq - (dot a b)^2 := by
  unfold normSq cross dot
  dsimp only
  ring

end Vec3

/-- C9.  Tangent-frame non-degeneracy: for every unit surface normal, the
seed axis picked in the blade loop is never parallel to the normal — the
cross product of seed and normal is nonzero — hence the normalized tangent
and the bitangent are nonzero, and tangent, bitangent and normal are
pairwise orthogonal unit vectors. -/
theorem tangent_frame_orthonormal (n : Vec3) (hn : Vec3.len n = 1) :
    Vec3.cross (GrassSystem.tangentSeed n) n ≠ Vec3.zero ∧
    GrassSystem.bladeTangent n ≠ Vec3.zero ∧
    GrassSystem.bladeBitangent n ≠ Vec3.zero ∧
    Vec3.len (GrassSystem.bladeTangent n) = 1 ∧
    Vec3.len (GrassSystem.bladeBitangent n) = 1 ∧
    Vec3.dot n (GrassSystem.bladeTangent n) = 0 ∧
    Vec3.dot n (GrassSystem.bladeBitangent n) = 0 ∧
    Vec3.dot (GrassSystem.bladeTangent n) (GrassSystem.bladeBitangent n) = 0 := by
  have hn2 : n.normSq = 1 := (Vec3.len_eq_one_iff n).mp hn
  have hn2e : n.x * n.x + n.y * n.y + n.z * n.z = 1 := hn2
  have hc : 0 < (Vec3.cross (GrassSystem.tangentSeed n) n).normSq := by
    unfold GrassSystem.tangentSeed
    split
    · rename_i h
      have hy : n.y * n.y < 1 := by
        have h1 : |n.y| * |n.y| < (99/100) * (99/100) :=
          mul_self_lt_mul_self (abs_nonneg _) h
        rw [abs_mul_abs_self] at h1
        linarith
      unfold Vec3.cross Vec3.normSq
      dsimp only
      nlinarith
    · rename_i h
      push_neg at h
      have hy : (99/100 : ℝ) * (99/100) ≤ n.y * n.y := by
        have h1 := mul_self_le_mul_self (by norm_num : (0:ℝ) ≤ 99/100) h
        rw [abs_mul_abs_self] at h1
        linarith
      unfold Vec3.cross Vec3.normSq
      dsimp only
      nlinarith
  have hcne : (Vec3.cross (GrassSystem.tangentSeed n) n).normSq ≠ 0 := ne_of_gt hc
  have hcz : Vec3.cross (GrassSystem.tangentSeed n) n ≠ Vec3.zero := fun h =>
    hcne ((Vec3.normSq_eq_zero_iff _).mpr h)
  have hTlen : (GrassSystem.bladeTangent n).len = 1 := Vec3.len_normalize hcne
  have hT2 : (GrassSystem.bladeTangent n).normSq = 1 := (Vec3.len_eq_one_iff _).mp hTlen
  have hTne : GrassSystem.bladeTangent n ≠ Vec3.zero := by
    intro h
    rw [h, Vec3.len_zero_vec] at hTlen
    norm_num at hTlen
  have hnT : Vec3.dot n (GrassSystem.bladeTangent n) = 0 := by
    unfold GrassSystem.bladeTangent Vec3.normalize
    rw [Vec3.dot_smul_right, Vec3.dot_cross_right]
    ring
  have hB2 : (GrassSystem.bladeBitangent n).normSq = 1 := by
    unfold GrassSystem.bladeBitangent
    rw [Vec3.normSq_cross, hn2, hT2, hnT]
    norm_num
  have hBlen : (GrassSystem.bladeBitangent n).len = 1 := (Vec3.len_eq_one_iff _).mpr hB2
  have hBne : GrassSystem.bladeBitangent n ≠ Vec3.zero := by
    intro h
    rw [h, Vec3.len_zero_vec] at hBlen
    norm_num at hBlen
  have hnB : Vec3.dot n (GrassSystem.bladeBitangent n) = 0 := Vec3.dot_cross_left n _
  have hTB : Vec3.dot (GrassSystem.bladeTangent n) (GrassSystem.bladeBitangent n) = 0 :=
    Vec3.dot_cross_right n _
  exact ⟨hcz, hTne, hBne, hTlen, hBlen, hnT, hnB, hTB⟩

/-- Witness for C9 at the unit normal (0,0,1). -/
theorem tangent_frame_orthonormal_witness :
    GrassSystem.bladeTangent ⟨0, 0, 1⟩ ≠ Vec3.zero ∧
    Vec3.dot ⟨0, 0, 1⟩ (GrassSystem.bladeTangent ⟨0, 0, 1⟩) = 0 := by
  have h : Vec3.len (⟨0, 0, 1⟩ : Vec3) = 1 := by
    simp [Vec3.len, Vec3.normSq, Real.sqrt_one]
  exact ⟨(tangent_frame_orthonormal _ h).2.1,
    (tangent_frame_orthonormal _ h).2.2.2.2.2.1⟩

namespace PerlinNoise

lemma permTable_getD (seed : ℚ) (j : ℕ) (hj : j < 512) :
    (permTable seed).getD j 0 = Int.tmod (((j % 256 : ℕ) : ℤ) + simpleSeed seed) 256 := by
  unfold permTable
  rw [List.getD_eq_getElem?_getD, List.getElem?_map, List.getElem?_range hj]
  rfl

end PerlinNoise

/-- C8 (amended to nonnegative seeds).  For every seed with floor(seed)
nonnegative — which covers every seed the repository constructs — the
constructor builds a table of length 512 with perm[i] = perm[i + 256] =
(i + floor(seed) mod 256) mod 256 for i below 256: the identity permutation
0..255 cyclically shifted and duplicated.  The table is only ever read
after construction (noise and octaveNoise are pure functions of it).  For
negative seeds the claim fails, see the counterexample. -/
theorem perm_table_cyclic_shift (seed : ℚ) (hs : 0 ≤ seed) (i : ℕ) (hi : i < 256) :
    (PerlinNoise.permTable seed).getD i 0 = ((i : ℤ) + ⌊seed⌋ % 256) % 256 ∧
    (PerlinNoise.permTable seed).getD (i + 256) 0 = ((i : ℤ) + ⌊seed⌋ % 256) % 256 := by
  have hf : (0:ℤ) ≤ ⌊seed⌋ := Int.floor_nonneg.mpr hs
  have hts : PerlinNoise.simpleSeed seed = ⌊seed⌋ % 256 :=
    Int.tmod_eq_emod hf (by norm_num)
  constructor
  · rw [PerlinNoise.permTable_getD seed i (by omega), hts, Nat.mod_eq_of_lt hi,
      Int.tmod_eq_emod (by omega) (by norm_num)]
  · rw [PerlinNoise.permTable_getD seed (i + 256) (by omega), hts,
      show (i + 256) % 256 = i from by omega,
      Int.tmod_eq_emod (by omega) (by norm_num)]

/-- Witness for C8 at seed 0, index 0. -/
theorem perm_table_cyclic_shift_witness :
    (PerlinNoise.permTable 0).getD 0 0 = ((0 : ℤ) + ⌊(0:ℚ)⌋ % 256) % 256 :=
  (perm_table_cyclic_shift 0 (le_refl 0) 0 (by decide)).1

/-- Counterexample for C8 as frozen (quantifying over every seed): at seed
-1 the table entry perm[0] is the JS remainder -1, not the cyclic-shift
value (0 + floor(-1) mod 256) mod 256 = 255, and the table is not a
permutation of 0..255. -/
theorem perm_table_negative_seed_counterexample :
    (PerlinNoise.permTable (-1 : ℚ)).getD 0 0 = -1 ∧
    ((0 : ℤ) + ⌊(-1 : ℚ)⌋ % 256) % 256 = 255 ∧
    (PerlinNoise.permTable (-1 : ℚ)).getD 0 0 ≠ ((0 : ℤ) + ⌊(-1 : ℚ)⌋ % 256) % 256 := by
  have hfl : ⌊(-1 : ℚ)⌋ = -1 := by norm_num
  have h0 : (PerlinNoise.permTable (-1 : ℚ)).getD 0 0 = -1 := by
    rw [PerlinNoise.permTable_getD (-1) 0 (by omega)]
    unfold PerlinNoise.simpleSeed
    rw [hfl]
    decide
  refine ⟨h0, by rw [hfl]; decide, ?_⟩
  rw [h0, hfl]
  decide

namespace NoiseBound

lemma memS_add {S : ℤ} {a b : ℝ} {A B : ℤ × ℤ} (ha : memS S a A) (hb : memS S b B) :
    memS S (a + b) (iadd A B) := by
  obtain ⟨ha1, ha2⟩ := ha
  obtain ⟨hb1, hb2⟩ := hb
  unfold memS iadd
  push_cast
  constructor <;> [nlinarith; nlinarith]

lemma memS_neg {S : ℤ} {a : ℝ} {A : ℤ × ℤ} (ha : memS S a A) : memS S (-a) (ineg A) := by
  obtain ⟨ha1, ha2⟩ := ha
  unfold memS ineg
  push_cast
  constructor <;> [nlinarith; nlinarith]

lemma memS_lerp {S : ℤ} {a b t : ℝ} {A B T : ℤ × ℤ}
    (ha : memS S a A) (hb : memS S b B)
    (ht : (T.1 : ℝ) ≤ (D:ℝ) * t ∧ (D:ℝ) * t ≤ (T.2 : ℝ))
    (ht0 : 0 ≤ t) (ht1 : t ≤ 1) :
    memS (S * D) (PerlinNoise.lerp a b t) (ilerp A B T) := by
  obtain ⟨ha1, ha2⟩ := ha
  obtain ⟨hb1, hb2⟩ := hb
  obtain ⟨htl, htu⟩ := ht
  have hD : ((D:ℤ):ℝ) = 7776 := by norm_num [D]
  have htau0 : 0 ≤ (D:ℝ) * t := by rw [hD]; positivity
  have htauD : (D:ℝ) * t ≤ (D:ℝ) := by rw [hD]; nlinarith
  unfold memS ilerp PerlinNoise.lerp
  push_cast
  constructor
  · have hmid : ((D:ℝ)) * (A.1:ℝ) + ((D:ℝ) * t) * ((B.1:ℝ) - (A.1:ℝ)) ≤
        (S:ℝ) * (D:ℝ) * (a + t * (b - a)) := by
      nlinarith [mul_nonneg (sub_nonneg.mpr htauD) (sub_nonneg.mpr ha1),
        mul_nonneg htau0 (sub_nonneg.mpr hb1)]
    rcases le_total (A.1 : ℝ) (B.1 : ℝ) with hd | hd
    · have h1 : (T.1:ℝ) * ((B.1:ℝ) - (A.1:ℝ)) ≤ ((D:ℝ) * t) * ((B.1:ℝ) - (A.1:ℝ)) :=
        mul_le_mul_of_nonneg_right htl (by linarith)
      calc (min ((D:ℝ) * A.1 + (T.1:ℝ) * ((B.1:ℝ) - A.1)) ((D:ℝ) * A.1 + (T.2:ℝ) * ((B.1:ℝ) - A.1)))
          ≤ (D:ℝ) * A.1 + (T.1:ℝ) * ((B.1:ℝ) - A.1) := min_le_left _ _
        _ ≤ (D:ℝ) * A.1 + ((D:ℝ) * t) * ((B.1:ℝ) - A.1) := by linarith
        _ ≤ (S:ℝ) * (D:ℝ) * (a + t * (b - a)) := hmid
    · have h1 : (T.2:ℝ) * ((B.1:ℝ) - (A.1:ℝ)) ≤ ((D:ℝ) * t) * ((B.1:ℝ) - (A.1:ℝ)) :=
        mul_le_mul_of_nonpos_right htu (by linarith)
      calc (min ((D:ℝ) * A.1 + (T.1:ℝ) * ((B.1:ℝ) - A.1)) ((D:ℝ) * A.1 + (T.2:ℝ) * ((B.1:ℝ) - A.1)))
          ≤ (D:ℝ) * A.1 + (T.2:ℝ) * ((B.1:ℝ) - A.1) := min_le_right _ _
        _ ≤ (D:ℝ) * A.1 + ((D:ℝ) * t) * ((B.1:ℝ) - A.1) := by linarith
        _ ≤ (S:ℝ) * (D:ℝ) * (a + t * (b - a)) := hmid
  · have hmid : (S:ℝ) * (D:ℝ) * (a + t * (b - a)) ≤
        ((D:ℝ)) * (A.2:ℝ) + ((D:ℝ) * t) * ((B.2:ℝ) - (A.2:ℝ)) := by
      nlinarith [mul_nonneg (sub_nonneg.mpr htauD) (sub_nonneg.mpr ha2),
        mul_nonneg htau0 (sub_nonneg.mpr hb2)]
    rcases le_total (A.2 : ℝ) (B.2 : ℝ) with hd | hd
    · have h1 : ((D:ℝ) * t) * ((B.2:ℝ) - (A.2:ℝ)) ≤ (T.2:ℝ) * ((B.2:ℝ) - (A.2:ℝ)) :=
        mul_le_mul_of_nonneg_right htu (by linarith)
      calc (S:ℝ) * (D:ℝ) * (a + t * (b - a))
          ≤ (D:ℝ) * A.2 + ((D:ℝ) * t) * ((B.2:ℝ) - A.2) := hmid
        _ ≤ (D:ℝ) * A.2 + (T.2:ℝ) * ((B.2:ℝ) - A.2) := by linarith
        _ ≤ max ((D:ℝ) * A.2 + (T.1:ℝ) * ((B.2:ℝ) - A.2)) ((D:ℝ) * A.2 + (T.2:ℝ) * ((B.2:ℝ) - A.2)) :=
            le_max_right _ _
    · have h1 : ((D:ℝ) * t) * ((B.2:ℝ) - (A.2:ℝ)) ≤ (T.1:ℝ) * ((B.2:ℝ) - (A.2:ℝ)) :=
        mul_le_mul_of_nonpos_right htl (by linarith)
      calc (S:ℝ) * (D:ℝ) * (a + t * (b - a))
          ≤ (D:ℝ) * A.2 + ((D:ℝ) * t) * ((B.2:ℝ) - A.2) := hmid
        _ ≤ (D:ℝ) * A.2 + (T.1:ℝ) * ((B.2:ℝ) - A.2) := by linarith
        _ ≤ max ((D:ℝ) * A.2 + (T.1:ℝ) * ((B.2:ℝ) - A.2)) ((D:ℝ) * A.2 + (T.2:ℝ) * ((B.2:ℝ) - A.2)) :=
            le_max_left _ _

end NoiseBound

namespace NoiseBound

lemma memS_igrad (h : ℕ) {x y z : ℝ} {X Y Z : ℤ × ℤ}
    (hx : memS 6 x X) (hy : memS 6 y Y) (hz : memS 6 z Z) :
    memS 6 (PerlinNoise.grad h x y z) (igrad h X Y Z) := by
  unfold PerlinNoise.grad igrad
  dsimp only
  by_cases h8 : h &&& 15 < 8 <;> by_cases h4 : h &&& 15 < 4 <;>
    by_cases h1214 : h &&& 15 = 12 ∨ h &&& 15 = 14 <;>
    by_cases hb1 : (h &&& 15) &&& 1 = 0 <;> by_cases hb2 : (h &&& 15) &&& 2 = 0 <;>
    simp only [h8, h4, h1214, hb1, hb2, if_true, if_false] <;>
    solve_by_elim [memS_add, memS_neg]

lemma fade_monotoneOn : MonotoneOn PerlinNoise.fade (Set.Icc (0:ℝ) 1) := by
  have hfe : PerlinNoise.fade = fun t : ℝ => 6*t^5 - 15*t^4 + 10*t^3 := by
    funext t
    unfold PerlinNoise.fade
    ring
  rw [hfe]
  apply monotoneOn_of_deriv_nonneg (convex_Icc 0 1)
  · exact Continuous.continuousOn (by continuity)
  · apply Differentiable.differentiableOn
    fun_prop
  · intro x hx
    have h5 : HasDerivAt (fun t : ℝ => 6*t^5 - 15*t^4 + 10*t^3)
        (6*((5:ℕ)*x^4) - 15*((4:ℕ)*x^3) + 10*((3:ℕ)*x^2)) x := by
      have h := (((hasDerivAt_pow 5 x).const_mul (6:ℝ)).sub
        ((hasDerivAt_pow 4 x).const_mul (15:ℝ))).add ((hasDerivAt_pow 3 x).const_mul (10:ℝ))
      convert h using 1
    rw [h5.deriv]
    push_cast
    nlinarith [sq_nonneg (x - x^2)]

lemma fade_zero : PerlinNoise.fade 0 = 0 := by
  unfold PerlinNoise.fade
  ring

lemma fade_one : PerlinNoise.fade 1 = 1 := by
  unfold PerlinNoise.fade
  norm_num

lemma fade_nonneg {x : ℝ} (h0 : 0 ≤ x) (h1 : x ≤ 1) : 0 ≤ PerlinNoise.fade x := by
  have := fade_monotoneOn (Set.left_mem_Icc.mpr zero_le_one) ⟨h0, h1⟩ h0
  rwa [fade_zero] at this

lemma fade_le_one {x : ℝ} (h0 : 0 ≤ x) (h1 : x ≤ 1) : PerlinNoise.fade x ≤ 1 := by
  have := fade_monotoneOn ⟨h0, h1⟩ (Set.right_mem_Icc.mpr zero_le_one) h1
  rwa [fade_one] at this

lemma fadeN_cast (k : ℕ) : (fadeN k : ℝ) = (D:ℝ) * PerlinNoise.fade ((k:ℝ) / 6) := by
  unfold fadeN D PerlinNoise.fade
  push_cast
  ring

/-- The fade interval at scale D for a coordinate inside the grid cell
[k/6, (k+1)/6] inside the unit interval. -/
lemma fade_interval {k : ℕ} (hk : k < 6) {x : ℝ}
    (hxl : (k:ℝ)/6 ≤ x) (hxu : x ≤ ((k:ℝ)+1)/6) :
    (fadeN k : ℝ) ≤ (D:ℝ) * PerlinNoise.fade x ∧
    (D:ℝ) * PerlinNoise.fade x ≤ (fadeN (k+1) : ℝ) := by
  have hk6 : ((k:ℝ)+1)/6 ≤ 1 := by
    have : (k:ℝ) ≤ 5 := by exact_mod_cast Nat.lt_succ_iff.mp hk
    linarith
  have h0 : (0:ℝ) ≤ (k:ℝ)/6 := by positivity
  have hx0 : 0 ≤ x := le_trans h0 hxl
  have hx1 : x ≤ 1 := le_trans hxu hk6
  have hDpos : (0:ℝ) < (D:ℝ) := by norm_num [D]
  constructor
  · rw [fadeN_cast]
    have := fade_monotoneOn ⟨h0, le_trans hxl hx1⟩ ⟨hx0, hx1⟩ hxl
    nlinarith
  · rw [fadeN_cast]
    have h1 : PerlinNoise.fade x ≤ PerlinNoise.fade (((k:ℝ)+1)/6) := by
      have := fade_monotoneOn ⟨hx0, hx1⟩ ⟨le_trans hx0 hxu, hk6⟩ hxu
      exact this
    push_cast
    nlinarith

end NoiseBound

namespace NoiseBound

lemma icell_sound (n k1 k2 k3 : ℕ) (hk1 : k1 < 6) (hk2 : k2 < 6) (hk3 : k3 < 6)
    {x y z : ℝ}
    (hxl : (k1:ℝ)/6 ≤ x) (hxu : x ≤ ((k1:ℝ)+1)/6)
    (hyl : (k2:ℝ)/6 ≤ y) (hyu : y ≤ ((k2:ℝ)+1)/6)
    (hzl : (k3:ℝ)/6 ≤ z) (hzu : z ≤ ((k3:ℝ)+1)/6) :
    memS (6 * D * D * D) (PerlinNoise.cellNoise n x y z) (icell n k1 k2 k3) := by
  have hcell : ∀ (k : ℕ), k < 6 → ∀ w : ℝ, (k:ℝ)/6 ≤ w → w ≤ ((k:ℝ)+1)/6 →
      0 ≤ w ∧ w ≤ 1 := by
    intro k hk w hwl hwu
    have hkr : (k:ℝ) ≤ 5 := by exact_mod_cast Nat.lt_succ_iff.mp hk
    constructor
    · have : (0:ℝ) ≤ (k:ℝ)/6 := by positivity
      linarith
    · have : ((k:ℝ)+1)/6 ≤ 1 := by linarith
      linarith
  obtain ⟨hx0, hx1⟩ := hcell k1 hk1 x hxl hxu
  obtain ⟨hy0, hy1⟩ := hcell k2 hk2 y hyl hyu
  obtain ⟨hz0, hz1⟩ := hcell k3 hk3 z hzl hzu
  have hX : memS 6 x ((k1:ℤ), (k1:ℤ)+1) := by
    unfold memS
    constructor <;> push_cast <;> linarith
  have hXm : memS 6 (x - 1) ((k1:ℤ) - 6, (k1:ℤ) + 1 - 6) := by
    unfold memS
    constructor <;> push_cast <;> linarith
  have hY : memS 6 y ((k2:ℤ), (k2:ℤ)+1) := by
    unfold memS
    constructor <;> push_cast <;> linarith
  have hYm : memS 6 (y - 1) ((k2:ℤ) - 6, (k2:ℤ) + 1 - 6) := by
    unfold memS
    constructor <;> push_cast <;> linarith
  have hZ : memS 6 z ((k3:ℤ), (k3:ℤ)+1) := by
    unfold memS
    constructor <;> push_cast <;> linarith
  have hZm : memS 6 (z - 1) ((k3:ℤ) - 6, (k3:ℤ) + 1 - 6) := by
    unfold memS
    constructor <;> push_cast <;> linarith
  have hU := fade_interval hk1 hxl hxu
  have hV := fade_interval hk2 hyl hyu
  have hW := fade_interval hk3 hzl hzu
  have hfx0 := fade_nonneg hx0 hx1
  have hfx1 := fade_le_one hx0 hx1
  have hfy0 := fade_nonneg hy0 hy1
  have hfy1 := fade_le_one hy0 hy1
  have hfz0 := fade_nonneg hz0 hz1
  have hfz1 := fade_le_one hz0 hz1
  unfold PerlinNoise.cellNoise icell
  dsimp only
  exact memS_lerp
    (memS_lerp
      (memS_lerp (memS_igrad _ hX hY hZ) (memS_igrad _ hXm hY hZ) hU hfx0 hfx1)
      (memS_lerp (memS_igrad _ hX hYm hZ) (memS_igrad _ hXm hYm hZ) hU hfx0 hfx1)
      hV hfy0 hfy1)
    (memS_lerp
      (memS_lerp (memS_igrad _ hX hY hZm) (memS_igrad _ hXm hY hZm) hU hfx0 hfx1)
      (memS_lerp (memS_igrad _ hX hYm hZm) (memS_igrad _ hXm hYm hZm) hU hfx0 hfx1)
      hV hfy0 hfy1)
    hW hfz0 hfz1

end NoiseBound

set_option maxRecDepth 4000 in
lemma noise_check_class_0 : NoiseBound.checkClass 0 = true := by decide

set_option maxRecDepth 4000 in
lemma noise_check_class_1 : NoiseBound.checkClass 1 = true := by decide

set_option maxRecDepth 4000 in
lemma noise_check_class_2 : NoiseBound.checkClass 2 = true := by decide

set_option maxRecDepth 4000 in
lemma noise_check_class_3 : NoiseBound.checkClass 3 = true := by decide

set_option maxRecDepth 4000 in
lemma noise_check_class_4 : NoiseBound.checkClass 4 = true := by decide

set_option maxRecDepth 4000 in
lemma noise_check_class_5 : NoiseBound.checkClass 5 = true := by decide

set_option maxRecDepth 4000 in
lemma noise_check_class_6 : NoiseBound.checkClass 6 = true := by decide

set_option maxRecDepth 4000 in
lemma noise_check_class_7 : NoiseBound.checkClass 7 = true := by decide

set_option maxRecDepth 4000 in
lemma noise_check_class_8 : NoiseBound.checkClass 8 = true := by decide

set_option maxRecDepth 4000 in
lemma noise_check_class_9 : NoiseBound.checkClass 9 = true := by decide

set_option maxRecDepth 4000 in
lemma noise_check_class_10 : NoiseBound.checkClass 10 = true := by decide

set_option maxRecDepth 4000 in
lemma noise_check_class_11 : NoiseBound.checkClass 11 = true := by decide

set_option maxRecDepth 4000 in
lemma noise_check_class_12 : NoiseBound.checkClass 12 = true := by decide

set_option maxRecDepth 4000 in
lemma noise_check_class_13 : NoiseBound.checkClass 13 = true := by decide

set_option maxRecDepth 4000 in
lemma noise_check_class_14 : NoiseBound.checkClass 14 = true := by decide

set_option maxRecDepth 4000 in
lemma noise_check_class_15 : NoiseBound.checkClass 15 = true := by decide

lemma checkClass_true (n : ℕ) (hn : n < 16) : NoiseBound.checkClass n = true := by
  interval_cases n
  · exact noise_check_class_0
  · exact noise_check_class_1
  · exact noise_check_class_2
  · exact noise_check_class_3
  · exact noise_check_class_4
  · exact noise_check_class_5
  · exact noise_check_class_6
  · exact noise_check_class_7
  · exact noise_check_class_8
  · exact noise_check_class_9
  · exact noise_check_class_10
  · exact noise_check_class_11
  · exact noise_check_class_12
  · exact noise_check_class_13
  · exact noise_check_class_14
  · exact noise_check_class_15

lemma checkCell_true (n k1 k2 k3 : ℕ) (hn : n < 16) (h1 : k1 < 6) (h2 : k2 < 6) (h3 : k3 < 6) :
    NoiseBound.checkCell n k1 k2 k3 = true := by
  have h := checkClass_true n hn
  unfold NoiseBound.checkClass at h
  simp only [List.all_eq_true, List.mem_range] at h
  exact h k1 h1 k2 h2 k3 h3

lemma cellNoise_abs_le_one (n : ℕ) (hn : n < 16) {x y z : ℝ}
    (hx0 : 0 ≤ x) (hx1 : x < 1) (hy0 : 0 ≤ y) (hy1 : y < 1) (hz0 : 0 ≤ z) (hz1 : z < 1) :
    |PerlinNoise.cellNoise n x y z| ≤ 1 := by
  have floorCell : ∀ w : ℝ, 0 ≤ w → w < 1 →
      ∃ k : ℕ, k < 6 ∧ (k:ℝ)/6 ≤ w ∧ w ≤ ((k:ℝ)+1)/6 := by
    intro w hw0 hw1
    refine ⟨(⌊6 * w⌋).toNat, ?_, ?_, ?_⟩
    · have h6 : ⌊6 * w⌋ < 6 := Int.floor_lt.mpr (by push_cast; linarith)
      omega
    · have h0 : (0:ℤ) ≤ ⌊6 * w⌋ := Int.floor_nonneg.mpr (by linarith)
      have hle : ((⌊6 * w⌋ : ℤ) : ℝ) ≤ 6 * w := Int.floor_le _
      have hcast : (((⌊6 * w⌋).toNat : ℕ) : ℝ) = ((⌊6 * w⌋ : ℤ) : ℝ) := by
        exact_mod_cast congrArg Int.cast (Int.toNat_of_nonneg h0)
      rw [div_le_iff₀ (by norm_num : (0:ℝ) < 6), hcast]
      linarith
    · have h0 : (0:ℤ) ≤ ⌊6 * w⌋ := Int.floor_nonneg.mpr (by linarith)
      have hlt : 6 * w < ((⌊6 * w⌋ : ℤ) : ℝ) + 1 := Int.lt_floor_add_one _
      have hcast : (((⌊6 * w⌋).toNat : ℕ) : ℝ) = ((⌊6 * w⌋ : ℤ) : ℝ) := by
        exact_mod_cast congrArg Int.cast (Int.toNat_of_nonneg h0)
      rw [le_div_iff₀ (by norm_num : (0:ℝ) < 6), hcast]
      linarith
  obtain ⟨k1, hk1, hxl, hxu⟩ := floorCell x hx0 hx1
  obtain ⟨k2, hk2, hyl, hyu⟩ := floorCell y hy0 hy1
  obtain ⟨k3, hk3, hzl, hzu⟩ := floorCell z hz0 hz1
  have hsound := NoiseBound.icell_sound n k1 k2 k3 hk1 hk2 hk3 hxl hxu hyl hyu hzl hzu
  have hchk := checkCell_true n k1 k2 k3 hn hk1 hk2 hk3
  unfold NoiseBound.checkCell at hchk
  rw [Bool.and_eq_true, decide_eq_true_eq, decide_eq_true_eq] at hchk
  obtain ⟨hlo, hhi⟩ := hchk
  obtain ⟨hs1, hs2⟩ := hsound
  have hD : ((NoiseBound.D : ℤ) : ℝ) = 7776 := by norm_num [NoiseBound.D]
  have hlo2 : ((-(6 * NoiseBound.D^3) : ℤ) : ℝ) ≤ ((NoiseBound.icell n k1 k2 k3).1 : ℝ) :=
    Int.cast_le.mpr hlo
  have hhi2 : (((NoiseBound.icell n k1 k2 k3).2 : ℤ) : ℝ) ≤ ((6 * NoiseBound.D^3 : ℤ) : ℝ) :=
    Int.cast_le.mpr hhi
  push_cast at hlo2 hhi2 hs1 hs2
  rw [hD] at hlo2 hhi2 hs1 hs2
  norm_num at hlo2 hhi2 hs1 hs2
  rw [abs_le]
  constructor <;> linarith

namespace PerlinNoise

lemma grad_congr {a b : ℕ} (he : a % 16 = b % 16) (x y z : ℝ) :
    grad a x y z = grad b x y z := by
  unfold grad
  have e1 : a &&& 15 = a % 16 := by
    have h := Nat.and_pow_two_sub_one_eq_mod a 4
    norm_num at h
    exact h
  have e2 : b &&& 15 = b % 16 := by
    have h := Nat.and_pow_two_sub_one_eq_mod b 4
    norm_num at h
    exact h
  rw [e1, e2, he]

lemma permAt_toNat (seed : ℚ) (hs : 0 ≤ seed) (j : ℕ) (hj : j < 512) :
    (permAt seed j).toNat = (j + (⌊seed⌋ % 256).toNat) % 256 := by
  have hf : (0:ℤ) ≤ ⌊seed⌋ := Int.floor_nonneg.mpr hs
  unfold permAt
  rw [permTable_getD seed j hj]
  unfold simpleSeed
  rw [Int.tmod_eq_emod hf (by norm_num)]
  rw [Int.tmod_eq_emod (by omega) (by norm_num)]
  omega

/-- With the cyclic table, noise on any input is the one-cell noise for the
hash class determined by X + Y + Z and the seed shift. -/
lemma noise_eq_cellNoise (seed : ℚ) (hs : 0 ≤ seed) (x y z : ℝ) :
    noise seed x y z =
      cellNoise (((⌊x⌋ % 256).toNat + (⌊y⌋ % 256).toNat + (⌊z⌋ % 256).toNat +
          3 * (⌊seed⌋ % 256).toNat) % 16)
        (x - (⌊x⌋ : ℝ)) (y - (⌊y⌋ : ℝ)) (z - (⌊z⌋ : ℝ)) := by
  have hp := permAt_toNat seed hs
  unfold noise cellNoise
  dsimp only
  set sN := (⌊seed⌋ % 256).toNat with hsN
  set X := (⌊x⌋ % 256).toNat with hX
  set Y := (⌊y⌋ % 256).toNat with hY
  set Z := (⌊z⌋ % 256).toNat with hZ
  have hXlt : X < 256 := by
    have h1 : (0:ℤ) ≤ ⌊x⌋ % 256 := Int.emod_nonneg _ (by norm_num)
    have h2 : ⌊x⌋ % 256 < 256 := Int.emod_lt_of_pos _ (by norm_num)
    omega
  have hYlt : Y < 256 := by
    have h1 : (0:ℤ) ≤ ⌊y⌋ % 256 := Int.emod_nonneg _ (by norm_num)
    have h2 : ⌊y⌋ % 256 < 256 := Int.emod_lt_of_pos _ (by norm_num)
    omega
  have hZlt : Z < 256 := by
    have h1 : (0:ℤ) ≤ ⌊z⌋ % 256 := Int.emod_nonneg _ (by norm_num)
    have h2 : ⌊z⌋ % 256 < 256 := Int.emod_lt_of_pos _ (by norm_num)
    omega
  rw [hp X (by omega), hp (X + 1) (by omega)]
  rw [hp ((X + sN) % 256 + Y) (by omega), hp ((X + sN) % 256 + Y + 1) (by omega)]
  rw [hp ((X + 1 + sN) % 256 + Y) (by omega), hp ((X + 1 + sN) % 256 + Y + 1) (by omega)]
  rw [hp (((X + sN) % 256 + Y + sN) % 256 + Z) (by omega)]
  rw [hp (((X + sN) % 256 + Y + sN) % 256 + Z + 1) (by omega)]
  rw [hp (((X + sN) % 256 + Y + 1 + sN) % 256 + Z) (by omega)]
  rw [hp (((X + sN) % 256 + Y + 1 + sN) % 256 + Z + 1) (by omega)]
  rw [hp (((X + 1 + sN) % 256 + Y + sN) % 256 + Z) (by omega)]
  rw [hp (((X + 1 + sN) % 256 + Y + sN) % 256 + Z + 1) (by omega)]
  rw [hp (((X + 1 + sN) % 256 + Y + 1 + sN) % 256 + Z) (by omega)]
  rw [hp (((X + 1 + sN) % 256 + Y + 1 + sN) % 256 + Z + 1) (by omega)]
  rw [grad_congr (b := ((X + Y + Z + 3 * sN) % 16 + 0) % 16)
    (by omega) (x - (⌊x⌋ : ℝ)) (y - (⌊y⌋ : ℝ)) (z - (⌊z⌋ : ℝ))]
  rw [grad_congr (b := ((X + Y + Z + 3 * sN) % 16 + 1) % 16)
    (by omega) (x - (⌊x⌋ : ℝ) - 1) (y - (⌊y⌋ : ℝ)) (z - (⌊z⌋ : ℝ))]
  rw [grad_congr (b := ((X + Y + Z + 3 * sN) % 16 + 1) % 16)
    (by omega) (x - (⌊x⌋ : ℝ)) (y - (⌊y⌋ : ℝ) - 1) (z - (⌊z⌋ : ℝ))]
  rw [grad_congr (b := ((X + Y + Z + 3 * sN) % 16 + 2) % 16)
    (by omega) (x - (⌊x⌋ : ℝ) - 1) (y - (⌊y⌋ : ℝ) - 1) (z - (⌊z⌋ : ℝ))]
  rw [grad_congr (b := ((X + Y + Z + 3 * sN) % 16 + 1) % 16)
    (by omega) (x - (⌊x⌋ : ℝ)) (y - (⌊y⌋ : ℝ)) (z - (⌊z⌋ : ℝ) - 1)]
  rw [grad_congr (b := ((X + Y + Z + 3 * sN) % 16 + 2) % 16)
    (by omega) (x - (⌊x⌋ : ℝ) - 1) (y - (⌊y⌋ : ℝ)) (z - (⌊z⌋ : ℝ) - 1)]
  rw [grad_congr (b := ((X + Y + Z + 3 * sN) % 16 + 2) % 16)
    (by omega) (x - (⌊x⌋ : ℝ)) (y - (⌊y⌋ : ℝ) - 1) (z - (⌊z⌋ : ℝ) - 1)]
  rw [grad_congr (b := ((X + Y + Z + 3 * sN) % 16 + 3) % 16)
    (by omega) (x - (⌊x⌋ : ℝ) - 1) (y - (⌊y⌋ : ℝ) - 1) (z - (⌊z⌋ : ℝ) - 1)]

end PerlinNoise

lemma noise_abs_le_one (seed : ℚ) (hs : 0 ≤ seed) (x y z : ℝ) :
    |PerlinNoise.noise seed x y z| ≤ 1 := by
  rw [PerlinNoise.noise_eq_cellNoise seed hs]
  have hx := Int.floor_le x
  have hx1 := Int.lt_floor_add_one x
  have hy := Int.floor_le y
  have hy1 := Int.lt_floor_add_one y
  have hz := Int.floor_le z
  have hz1 := Int.lt_floor_add_one z
  exact cellNoise_abs_le_one _ (Nat.mod_lt _ (by norm_num))
    (by linarith) (by linarith) (by linarith) (by linarith) (by linarith) (by linarith)

lemma octaveLoop_bound (seed : ℚ) (hs : 0 ≤ seed) (x y z : ℝ) :
    ∀ oc : ℕ, |(PerlinNoise.octaveLoop seed x y z 0.5 oc).1| ≤
        (PerlinNoise.octaveLoop seed x y z 0.5 oc).2.2.2 ∧
      0 ≤ (PerlinNoise.octaveLoop seed x y z 0.5 oc).2.2.1 := by
  intro oc
  induction oc with
  | zero =>
    constructor <;> simp [PerlinNoise.octaveLoop]
  | succ i ih =>
    obtain ⟨ih1, ih2⟩ := ih
    have hn := noise_abs_le_one seed hs
      (x * (PerlinNoise.octaveLoop seed x y z 0.5 i).2.1)
      (y * (PerlinNoise.octaveLoop seed x y z 0.5 i).2.1)
      (z * (PerlinNoise.octaveLoop seed x y z 0.5 i).2.1)
    constructor
    · show |(PerlinNoise.octaveLoop seed x y z 0.5 i).1 +
          PerlinNoise.noise seed (x * (PerlinNoise.octaveLoop seed x y z 0.5 i).2.1)
            (y * (PerlinNoise.octaveLoop seed x y z 0.5 i).2.1)
            (z * (PerlinNoise.octaveLoop seed x y z 0.5 i).2.1) *
          (PerlinNoise.octaveLoop seed x y z 0.5 i).2.2.1| ≤
        (PerlinNoise.octaveLoop seed x y z 0.5 i).2.2.2 +
          (PerlinNoise.octaveLoop seed x y z 0.5 i).2.2.1
      refine le_trans (abs_add _ _) ?_
      rw [abs_mul]
      have habs : |(PerlinNoise.octaveLoop seed x y z 0.5 i).2.2.1| =
          (PerlinNoise.octaveLoop seed x y z 0.5 i).2.2.1 := abs_of_nonneg ih2
      rw [habs]
      have hb := abs_nonneg (PerlinNoise.noise seed
        (x * (PerlinNoise.octaveLoop seed x y z 0.5 i).2.1)
        (y * (PerlinNoise.octaveLoop seed x y z 0.5 i).2.1)
        (z * (PerlinNoise.octaveLoop seed x y z 0.5 i).2.1))
      nlinarith
    · show 0 ≤ (PerlinNoise.octaveLoop seed x y z 0.5 i).2.2.1 * 0.5
      exact mul_nonneg ih2 (by norm_num)

lemma octave4_maxValue (seed : ℚ) (x y z : ℝ) :
    (PerlinNoise.octaveLoop seed x y z 0.5 4).2.2.2 = 15/8 := by
  simp only [PerlinNoise.octaveLoop]
  norm_num

/-- C5.  Displacement bound: the octave noise used by the construction-time
displacement pass (4 octaves, persistence 0.5) always lies in [0, 1], for
every real input and every nonnegative seed (the repository seeds with
Math.random() * 1000); hence every displaced vertex satisfies
|newRadius - originalRadius| <= noiseStrength. -/
theorem displacement_bound (seed : ℚ) (hs : 0 ≤ seed) (x y z : ℝ)
    (direction : Vec3) (originalRadius : ℝ) :
    (0 ≤ PerlinNoise.octaveNoise seed x y z 4 0.5 ∧
      PerlinNoise.octaveNoise seed x y z 4 0.5 ≤ 1) ∧
    |newRadius seed direction originalRadius - originalRadius| ≤ noiseStrength := by
  have hmain : ∀ a b c : ℝ, 0 ≤ PerlinNoise.octaveNoise seed a b c 4 0.5 ∧
      PerlinNoise.octaveNoise seed a b c 4 0.5 ≤ 1 := by
    intro a b c
    have hb := (octaveLoop_bound seed hs a b c 4).1
    rw [octave4_maxValue seed a b c] at hb
    rw [abs_le] at hb
    unfold PerlinNoise.octaveNoise
    dsimp only
    rw [octave4_maxValue seed a b c]
    constructor <;> nlinarith [hb.1, hb.2]
  refine ⟨hmain x y z, ?_⟩
  obtain ⟨h0, h1⟩ := hmain (direction.x * noiseScale) (direction.y * noiseScale)
    (direction.z * noiseScale)
  unfold newRadius noiseStrength
  dsimp only
  rw [abs_le]
  constructor <;> nlinarith [h0, h1]

/-- Witness for C5 at seed 0, direction (0,0,1), radius 40. -/
theorem displacement_bound_witness :
    |newRadius 0 ⟨0, 0, 1⟩ 40 - 40| ≤ noiseStrength :=
  (displacement_bound 0 (le_refl 0) 0 0 0 ⟨0, 0, 1⟩ 40).2
